import Mathlib

/-!
Verification of the RealtimeMessage server core (messaging / conversation /
crypto logic) against its natural-language specification.

Shallow embedding notes:
* User ids are `String` (Mongo ObjectIds compared via `toString()` in the
  source); conversation and message ids are `Nat`.
* The controller layer (`src/server/controllers/messageController.js`) reads
  and writes `participants`, `admins`, `isGroup`, `name` directly on the
  conversation document; we embed that document shape.
* Fallible endpoints return `Except Err _`; the `Err` constructors carry the
  HTTP status used by the source (`notFound` = 404, `forbidden` = 403,
  `badRequest` = 400).
* The AES-256-CBC primitive itself lives in Node's `crypto` library, outside
  this repository; `encryptMessage` / `decryptMessage` in
  `src/server/utils/crypto.js` are embedded with the library cipher passed in
  as a function parameter (`enc` / `dec`), while the repository-authored
  logic — fresh-IV envelope construction, hex encoding, the `iv:ciphertext`
  split — is embedded concretely. JS strings are modelled through
  `String`/`List Char`, byte buffers as `List Nat` (each entry < 256).
-/

/-- HTTP-level error kinds used by the message controller. -/
inductive Err where
  | notFound
  | forbidden
  | badRequest
deriving DecidableEq, Repr

/-- The HTTP status code each error kind is sent with in the source. -/
def Err.statusCode : Err → Nat
  | .notFound => 404
  | .forbidden => 403
  | .badRequest => 400

/-- `src/server/models/Message.js` — the persisted message document.
`content` is whatever string the controller stored (the schema itself does
not transform it; there is no pre-save hook on `MessageSchema`).
`isEncrypted` defaults to `true`, `read` to `false`. -/
structure Message where
  id : Nat
  conversationId : Nat
  sender : String
  recipient : String
  content : String
  isEncrypted : Bool
  read : Bool
  createdAt : Nat
deriving DecidableEq, Repr

/-- The conversation document as the message controller sees it:
`participants`, `admins`, `isGroup`, `name` are read and written directly
(`conversation.participants`, `conversation.admins`, ...). -/
structure Conversation where
  id : Nat
  name : String
  isGroup : Bool
  participants : List String
  admins : List String
deriving DecidableEq, Repr

/-- The durable store: all conversation documents and all message documents. -/
structure Store where
  convs : List Conversation
  msgs : List Message
deriving DecidableEq, Repr

/-! ### JS `Set` deduplication

The controllers build participant/admin lists with
`[...new Set([...xs, ...ys])]`, which keeps the first occurrence of each
element.  `jsDedup` mirrors that. -/

/-- First-occurrence-preserving deduplication: keep each element not yet
seen. -/
def jsDedupAux (seen : List String) : List String → List String
  | [] => []
  | a :: rest =>
    if seen.contains a then jsDedupAux seen rest
    else a :: jsDedupAux (a :: seen) rest

/-- The semantics of `[...new Set(list)]` in JS: first occurrences, in
order. -/
def jsDedup (l : List String) : List String := jsDedupAux [] l

theorem mem_jsDedupAux {x : String} :
    ∀ {seen l : List String}, x ∈ jsDedupAux seen l ↔ x ∈ l ∧ x ∉ seen := by
  intro seen l
  induction l generalizing seen with
  | nil => simp [jsDedupAux]
  | cons a rest ih =>
    rw [jsDedupAux]
    by_cases hs : seen.contains a
    · rw [if_pos hs, ih]
      have ha : a ∈ seen := by simpa using hs
      constructor
      · rintro ⟨h1, h2⟩
        exact ⟨List.mem_cons_of_mem _ h1, h2⟩
      · rintro ⟨h1, h2⟩
        rcases List.mem_cons.mp h1 with rfl | h1
        · exact absurd ha h2
        · exact ⟨h1, h2⟩
    · rw [if_neg hs]
      have ha : a ∉ seen := by simpa using hs
      by_cases hxa : x = a
      · subst hxa
        simp [ha]
      · simp only [List.mem_cons, hxa, false_or, ih, List.mem_cons]

theorem mem_jsDedup {x : String} {l : List String} : x ∈ jsDedup l ↔ x ∈ l := by
  rw [jsDedup, mem_jsDedupAux]
  simp

theorem nodup_jsDedupAux : ∀ (l seen : List String), (jsDedupAux seen l).Nodup := by
  intro l
  induction l with
  | nil => intro seen; simp [jsDedupAux]
  | cons a rest ih =>
    intro seen
    rw [jsDedupAux]
    by_cases hs : seen.contains a
    · rw [if_pos hs]; exact ih seen
    · rw [if_neg hs]
      refine List.nodup_cons.mpr ⟨?_, ih (a :: seen)⟩
      intro hmem
      exact (mem_jsDedupAux.mp hmem).2 (List.mem_cons_self _ _)

theorem nodup_jsDedup (l : List String) : (jsDedup l).Nodup :=
  nodup_jsDedupAux l []

theorem jsDedup_ne_nil {l : List String} (h : l ≠ []) : jsDedup l ≠ [] := by
  cases l with
  | nil => exact absurd rfl h
  | cons a rest =>
    rw [jsDedup, jsDedupAux]
    rw [if_neg (by simp)]
    exact List.cons_ne_nil _ _

/-! ### EncryptionCodec — `src/server/utils/crypto.js`

`encryptMessage` draws a fresh 16-byte IV, encrypts with AES-256-CBC and
returns `` `${iv.toString('hex')}:${encrypted.toString('hex')}` ``.
`decryptMessage` splits on `':'`, parses the first part as the IV, re-joins
the rest with `':'` and decrypts.  The block cipher (with the module-level
key baked in) is the function parameter `enc` / `dec`; everything else is
embedded below. -/

/-- Lowercase hex digit, as produced by `Buffer.toString('hex')`. -/
def hexDigit (n : Nat) : Char :=
  match n with
  | 0 => '0' | 1 => '1' | 2 => '2' | 3 => '3' | 4 => '4'
  | 5 => '5' | 6 => '6' | 7 => '7' | 8 => '8' | 9 => '9'
  | 10 => 'a' | 11 => 'b' | 12 => 'c' | 13 => 'd' | 14 => 'e' | 15 => 'f'
  | _ => '0'

/-- `Buffer.toString('hex')`: two hex digits per byte. -/
def hexChars (bs : List Nat) : List Char :=
  bs.flatMap (fun b => [hexDigit (b / 16), hexDigit (b % 16)])

/-- Value of a single hex digit (`Buffer.from(·,'hex')` accepts both cases). -/
def hexVal (c : Char) : Option Nat :=
  if '0' ≤ c ∧ c ≤ '9' then some (c.toNat - 48)
  else if 'a' ≤ c ∧ c ≤ 'f' then some (c.toNat - 87)
  else if 'A' ≤ c ∧ c ≤ 'F' then some (c.toNat - 55)
  else none

/-- `Buffer.from(s,'hex')` on a well-formed hex string; `none` marks the
malformed inputs on which the subsequent decipher call fails. -/
def hexPairs : List Char → Option (List Nat)
  | [] => some []
  | [_] => none
  | c1 :: c2 :: rest =>
    match hexVal c1, hexVal c2, hexPairs rest with
    | some h, some lo, some bs => some ((16 * h + lo) :: bs)
    | _, _, _ => none

/-- JS `String.prototype.split(':')` on a character list. -/
def jsSplit : List Char → List (List Char)
  | [] => [[]]
  | c :: rest =>
    let r := jsSplit rest
    if c = ':' then [] :: r
    else
      match r with
      | h :: t => (c :: h) :: t
      | [] => [[c]]

/-- JS `Array.prototype.join(':')` on character lists. -/
def joinColon : List (List Char) → List Char
  | [] => []
  | [x] => x
  | x :: xs => x ++ ':' :: joinColon xs

/-- `encryptMessage` (`crypto.js` lines 15–32): hex-encode the IV and the
ciphertext produced by the library cipher, joined by a colon.  The random
IV is a parameter (randomness made explicit); `enc iv text` stands for
`createCipheriv('aes-256-cbc', key, iv)` + `update`/`final` on the UTF-8
bytes of `text`. -/
def encryptMessage (enc : List Nat → String → List Nat) (iv : List Nat)
    (text : String) : String :=
  String.mk (hexChars iv ++ ':' :: hexChars (enc iv text))

/-- `decryptMessage` (`crypto.js` lines 39–59): split on `':'`, shift the IV
part, re-join the remainder with `':'`, hex-decode both, decrypt.
`dec iv ct` stands for `createDecipheriv` + `update`/`final` + `toString()`;
it returns `none` when the library call throws (bad padding / wrong key),
and the surrounding `try/catch` turns every failure into an error, which we
model as `none` overall. `createDecipheriv` also throws unless the IV is
exactly 16 bytes. -/
def decryptMessage (dec : List Nat → List Nat → Option String)
    (text : String) : Option String :=
  match jsSplit text.data with
  | [] => none
  | ivHex :: rest =>
    match hexPairs ivHex, hexPairs (joinColon rest) with
    | some iv, some ct => if iv.length = 16 then dec iv ct else none
    | _, _ => none

/-! ### Round-trip lemmas for the envelope layer -/

theorem hexVal_hexDigit {n : Nat} (h : n < 16) : hexVal (hexDigit n) = some n := by
  have : ∀ m : Fin 16, hexVal (hexDigit m.val) = some m.val := by decide
  exact this ⟨n, h⟩

theorem hexDigit_ne_colon (n : Nat) : hexDigit n ≠ ':' := by
  unfold hexDigit
  split <;> decide

theorem colon_not_mem_hexChars (bs : List Nat) : ':' ∉ hexChars bs := by
  intro hmem
  rcases List.mem_flatMap.mp hmem with ⟨b, _, hin⟩
  simp only [List.mem_cons, List.not_mem_nil, or_false] at hin
  rcases hin with h | h
  · exact hexDigit_ne_colon _ h.symm
  · exact hexDigit_ne_colon _ h.symm

theorem hexPairs_hexChars : ∀ (bs : List Nat), (∀ b ∈ bs, b < 256) →
    hexPairs (hexChars bs) = some bs := by
  intro bs
  induction bs with
  | nil => intro; rfl
  | cons b rest ih =>
    intro hb
    have hb256 : b < 256 := hb b (List.mem_cons_self _ _)
    have hhi : b / 16 < 16 := Nat.div_lt_of_lt_mul hb256
    have hlo : b % 16 < 16 := Nat.mod_lt _ (by decide)
    have hrest := ih (fun x hx => hb x (List.mem_cons_of_mem _ hx))
    show hexPairs (hexDigit (b / 16) :: hexDigit (b % 16) :: hexChars rest) = _
    rw [hexPairs, hexVal_hexDigit hhi, hexVal_hexDigit hlo, hrest]
    simp [Nat.div_add_mod]

theorem jsSplit_no_colon : ∀ (b : List Char), ':' ∉ b → jsSplit b = [b] := by
  intro b
  induction b with
  | nil => intro; rfl
  | cons c rest ih =>
    intro h
    have hc : ¬ c = ':' := fun hc => h (hc ▸ List.mem_cons_self _ _)
    have hr := ih (fun hm => h (List.mem_cons_of_mem _ hm))
    rw [jsSplit]
    simp only [hr, if_neg hc]

theorem jsSplit_append : ∀ (a b : List Char), ':' ∉ a →
    jsSplit (a ++ ':' :: b) = a :: jsSplit b := by
  intro a
  induction a with
  | nil =>
    intro b _
    show jsSplit (':' :: b) = [] :: jsSplit b
    rw [jsSplit]
    simp
  | cons c rest ih =>
    intro b h
    have hc : ¬ c = ':' := fun hc => h (hc ▸ List.mem_cons_self _ _)
    have hr := ih b (fun hm => h (List.mem_cons_of_mem _ hm))
    show jsSplit (c :: (rest ++ ':' :: b)) = (c :: rest) :: jsSplit b
    rw [jsSplit]
    simp only [hr, if_neg hc]

/-- C5 — Round-trip of the repository's envelope layer
(`src/server/utils/crypto.js`): for every plaintext `p` and every 16-byte
IV, provided the library block cipher inverts its own output
(`dec iv (enc iv p) = some p`, the contract of
`createCipheriv`/`createDecipheriv` under one key),
`decryptMessage (encryptMessage p) = p`.  The hex encoding, the
`iv:ciphertext` join, and the split/shift/re-join in `decryptMessage`
preserve the round-trip. -/
theorem c5_decrypt_encrypt_roundtrip
    (enc : List Nat → String → List Nat) (dec : List Nat → List Nat → Option String)
    (iv : List Nat) (p : String)
    (hiv16 : iv.length = 16) (hivB : ∀ b ∈ iv, b < 256)
    (hct : ∀ b ∈ enc iv p, b < 256)
    (hinv : dec iv (enc iv p) = some p) :
    decryptMessage dec (encryptMessage enc iv p) = some p := by
  unfold encryptMessage decryptMessage
  have hsplit : jsSplit (String.mk (hexChars iv ++ ':' :: hexChars (enc iv p))).data
      = hexChars iv :: [hexChars (enc iv p)] := by
    show jsSplit (hexChars iv ++ ':' :: hexChars (enc iv p)) = _
    rw [jsSplit_append _ _ (colon_not_mem_hexChars _),
      jsSplit_no_colon _ (colon_not_mem_hexChars _)]
  rw [hsplit]
  show (match hexPairs (hexChars iv), hexPairs (joinColon [hexChars (enc iv p)]) with
    | some iv2, some ct => if iv2.length = 16 then dec iv2 ct else none
    | _, _ => none) = some p
  rw [joinColon, hexPairs_hexChars _ hivB, hexPairs_hexChars _ hct]
  simp [hiv16, hinv]

/-- C5 witness: the round-trip theorem applied at a concrete cipher, IV and
plaintext. -/
theorem c5_decrypt_encrypt_roundtrip_witness :
    decryptMessage (fun _ _ => some "hi")
      (encryptMessage (fun _ _ => [104, 105]) (List.replicate 16 0) "hi") = some "hi" :=
  c5_decrypt_encrypt_roundtrip (fun _ _ => [104, 105]) (fun _ _ => some "hi")
    (List.replicate 16 0) "hi" (by simp) (by decide) (by decide) rfl

/-! ### ConversationRegistry — group mutations in
`src/server/controllers/messageController.js`

Each endpoint first runs a `Conversation.findOne` query; its conditions are
checked by `stepGroup` (and the store-level wrappers further below); the
guard/mutation core of each endpoint is a function on one conversation
document.  `Mongo`'s `findByIdAndDelete` on the emptied conversation is the
`Option.none` result. -/

/-- `leaveGroup` (messageController.js lines 218–303), after the
`findOne({_id, isGroup, participants: userId})` lookup: reject when the
leaver is the sole admin, else drop them from `participants` and `admins`;
delete the conversation when no participants remain. -/
def leaveGroupConv (c : Conversation) (userId : String) :
    Except Err (Option Conversation) :=
  if c.admins.length = 1 ∧ c.admins.head? = some userId then .error .badRequest
  else if (c.participants.filter (fun x => !(x == userId))).isEmpty then .ok none
  else
    .ok (some
      { c with
        participants := c.participants.filter (fun x => !(x == userId)),
        admins := c.admins.filter (fun x => !(x == userId)) })

/-- `removeParticipantFromGroup` (lines 308–404), after the
`findOne({_id, isGroup, participants: currentUser})` lookup: 400 when the
target is not a participant, 403 when the actor is not an admin, 400 when
the actor removes themself while being the sole admin; else drop the target
from both lists, deleting the conversation when emptied. -/
def removeParticipantConv (c : Conversation) (currentUserId participantId : String) :
    Except Err (Option Conversation) :=
  if ¬ c.participants.contains participantId then .error .badRequest
  else if ¬ c.admins.contains currentUserId then .error .forbidden
  else if participantId = currentUserId ∧ c.admins.length = 1 ∧
      c.admins.head? = some currentUserId then .error .badRequest
  else if (c.participants.filter (fun x => !(x == participantId))).isEmpty then .ok none
  else
    .ok (some
      { c with
        participants := c.participants.filter (fun x => !(x == participantId)),
        admins := c.admins.filter (fun x => !(x == participantId)) })

/-- `addParticipantsToGroup` (lines 409–476), after the
`findOne({_id, isGroup, admins: userId})` lookup: reject when every listed
user is already a participant, else append the new ones through a JS `Set`. -/
def addParticipantsConv (c : Conversation) (participants : List String) :
    Except Err Conversation :=
  if (participants.filter (fun p => !(c.participants.contains p))).isEmpty then
    .error .badRequest
  else
    .ok
      { c with
        participants := jsDedup (c.participants ++
          participants.filter (fun p => !(c.participants.contains p))) }

/-! `updateGroupConversation` (lines 481–561), after the
`findOne({_id, isGroup, admins: userId})` lookup, applies its four optional
request sections in order; the stages below mirror those sections. -/

/-- `if (name) conversation.name = name`. -/
def convUpdateName (c : Conversation) (nameOpt : Option String) : Conversation :=
  match nameOpt with
  | some n => { c with name := n }
  | none => c

/-- The `participants` section: append the not-yet-present users through a
JS `Set`, as in `addParticipantsToGroup` but with no emptiness rejection. -/
def convUpdateParts (c : Conversation) (participantsOpt : Option (List String)) :
    Conversation :=
  match participantsOpt with
  | some ps =>
    { c with
      participants := jsDedup (c.participants ++
        ps.filter (fun p => !(c.participants.contains p))) }
  | none => c

/-- The `addAdmins` section: only current participants that are not already
admins are added. -/
def convUpdateAddAdmins (c : Conversation) (addAdminsOpt : Option (List String)) :
    Conversation :=
  match addAdminsOpt with
  | some aa =>
    { c with
      admins := jsDedup (c.admins ++
        aa.filter (fun x => c.participants.contains x && !(c.admins.contains x))) }
  | none => c

/-- The `removeAdmins` section: keep every admin not listed — and always the
acting user — and reject (persisting nothing) if no admin would remain. -/
def convUpdateRemoveAdmins (c : Conversation) (userId : String)
    (removeAdminsOpt : Option (List String)) : Except Err Conversation :=
  match removeAdminsOpt with
  | some ra =>
    if (c.admins.filter (fun x => !(ra.contains x) || x == userId)).isEmpty then
      .error .badRequest
    else
      .ok
        { c with
          admins := c.admins.filter (fun x => !(ra.contains x) || x == userId) }
  | none => .ok c

/-- `updateGroupConversation`: the four sections in request order. -/
def updateGroupConv (c : Conversation) (userId : String) (nameOpt : Option String)
    (participantsOpt addAdminsOpt removeAdminsOpt : Option (List String)) :
    Except Err Conversation :=
  convUpdateRemoveAdmins (convUpdateAddAdmins (convUpdateParts (convUpdateName c nameOpt)
    participantsOpt) addAdminsOpt) userId removeAdminsOpt

/-- `createGroupConversation` (lines 566–603): participants are the request
list plus the creator through a JS `Set`; the admins are exactly the
creator. -/
def createGroupConversation (newId : Nat) (creatorId name : String)
    (participants : List String) : Conversation :=
  { id := newId, name := name, isGroup := true,
    participants := jsDedup (participants ++ [creatorId]),
    admins := [creatorId] }

/-- `ConversationSchema.statics.createGroup` (Conversation model, lines
464–500): `[...new Set([creatorId, ...participants])]` with
`groupInfo.admins = [creatorId]`. -/
def createGroup (newId : Nat) (creatorId name : String)
    (participants : List String) : Conversation :=
  { id := newId, name := name, isGroup := true,
    participants := jsDedup (creatorId :: participants),
    admins := [creatorId] }

/-- The `findOne` filter of `findOrCreateDirect`: a non-group conversation
whose participants include both users and have size 2. -/
def isDirectBetween (user1Id user2Id : String) (c : Conversation) : Bool :=
  !c.isGroup && c.participants.contains user1Id &&
    c.participants.contains user2Id && c.participants.length == 2

/-- `ConversationSchema.statics.findOrCreateDirect` (Conversation model,
lines 430–461): find a non-group conversation containing both users with
exactly two participants, else create `[user1Id, user2Id]`. -/
def findOrCreateDirect (convs : List Conversation) (user1Id user2Id : String)
    (newId : Nat) : Conversation × List Conversation :=
  match convs.find? (isDirectBetween user1Id user2Id) with
  | some c => (c, convs)
  | none =>
    let c : Conversation :=
      { id := newId, name := "", isGroup := false,
        participants := [user1Id, user2Id], admins := [] }
    (c, convs ++ [c])

/-! ### The admin invariant (C2) -/

/-- One participant/admin mutation request against a group conversation. -/
inductive GroupOp where
  | leave (userId : String)
  | removeParticipant (currentUserId participantId : String)
  | addParticipants (userId : String) (participants : List String)
  | updateGroup (userId : String) (nameOpt : Option String)
      (participantsOpt addAdminsOpt removeAdminsOpt : Option (List String))

/-- Persisted outcome of one request: `some` the (possibly unchanged, when
the endpoint rejected) conversation document, `none` when the conversation
was deleted.  The `if` conditions are each endpoint's `findOne` filter; a
missed lookup or a rejected request persists nothing. -/
def stepGroup (c : Conversation) : GroupOp → Option Conversation
  | .leave u =>
    if c.isGroup && c.participants.contains u then
      match leaveGroupConv c u with
      | .error _ => some c
      | .ok r => r
    else some c
  | .removeParticipant actor target =>
    if c.isGroup && c.participants.contains actor then
      match removeParticipantConv c actor target with
      | .error _ => some c
      | .ok r => r
    else some c
  | .addParticipants actor ps =>
    if c.isGroup && c.admins.contains actor then
      match addParticipantsConv c ps with
      | .error _ => some c
      | .ok c2 => some c2
    else some c
  | .updateGroup actor n ps aa ra =>
    if c.isGroup && c.admins.contains actor then
      match updateGroupConv c actor n ps aa ra with
      | .error _ => some c
      | .ok c2 => some c2
    else some c

/-- A sequence of mutation requests, applied in order; `none` (deleted) is
absorbing. -/
def runGroupOps (c : Conversation) : List GroupOp → Option Conversation
  | [] => some c
  | op :: rest =>
    match stepGroup c op with
    | none => none
    | some c2 => runGroupOps c2 rest

/-- The spec's conversation invariants 1 and 2: `admins ⊆ participants`,
and a nonempty admin list whenever participants remain. -/
def AdminInv (c : Conversation) : Prop :=
  (∀ a ∈ c.admins, a ∈ c.participants) ∧ (c.participants ≠ [] → c.admins ≠ [])

/-- Well-formedness as established at group creation: the admin invariant
plus a duplicate-free admin list (`createGroupConversation` starts with the
singleton `[creator]`, and every mutation below goes through a JS `Set`). -/
def GroupWF (c : Conversation) : Prop := AdminInv c ∧ c.admins.Nodup

/-! ### Preservation of the admin invariant -/

theorem mem_filter_neb {l : List String} {a u : String} :
    a ∈ l.filter (fun x => !(x == u)) ↔ a ∈ l ∧ a ≠ u := by
  simp [List.mem_filter]

/-- Removing one user from a duplicate-free admin list leaves it nonempty
unless the sole-admin guard would have fired. -/
theorem filter_neb_ne_nil {l : List String} {u : String} (hnd : l.Nodup)
    (hne : l ≠ []) (hguard : ¬ (l.length = 1 ∧ l.head? = some u)) :
    l.filter (fun x => !(x == u)) ≠ [] := by
  by_cases hu : u ∈ l
  · intro hnil
    have hall : ∀ a ∈ l, a = u := by
      intro a ha
      by_contra hne2
      have hmem : a ∈ l.filter (fun x => !(x == u)) := mem_filter_neb.mpr ⟨ha, hne2⟩
      rw [hnil] at hmem
      exact List.not_mem_nil a hmem
    cases l with
    | nil => exact hne rfl
    | cons a t =>
      cases t with
      | nil =>
        have ha : a = u := hall a (List.mem_cons_self _ _)
        exact hguard ⟨rfl, by simp [ha]⟩
      | cons b t2 =>
        have ha : a = u := hall a (List.mem_cons_self _ _)
        have hb : b = u := hall b (List.mem_cons_of_mem _ (List.mem_cons_self _ _))
        have hnd2 := List.nodup_cons.mp hnd
        exact hnd2.1 (by rw [ha, ← hb]; exact List.mem_cons_self _ _)
  · rw [List.filter_eq_self.mpr]
    · exact hne
    · intro a ha
      simp only [Bool.not_eq_true', beq_eq_false_iff_ne, ne_eq]
      intro h
      exact hu (h ▸ ha)

theorem leaveGroupConv_wf {c c2 : Conversation} {u : String}
    (hwf : GroupWF c) (hu : u ∈ c.participants)
    (h : leaveGroupConv c u = .ok (some c2)) : GroupWF c2 := by
  unfold leaveGroupConv at h
  split at h
  · exact Except.noConfusion h
  · rename_i hguard
    split at h
    · exact Option.noConfusion (Except.ok.inj h)
    · obtain rfl := Option.some.inj (Except.ok.inj h)
      refine ⟨⟨?_, ?_⟩, List.Nodup.filter _ hwf.2⟩
      · intro a ha
        rcases mem_filter_neb.mp ha with ⟨hin, hne⟩
        exact mem_filter_neb.mpr ⟨hwf.1.1 a hin, hne⟩
      · intro _
        exact filter_neb_ne_nil hwf.2 (hwf.1.2 (List.ne_nil_of_mem hu)) hguard

theorem removeParticipantConv_wf {c c2 : Conversation} {actor target : String}
    (hwf : GroupWF c)
    (h : removeParticipantConv c actor target = .ok (some c2)) : GroupWF c2 := by
  unfold removeParticipantConv at h
  split at h
  · exact Except.noConfusion h
  · rename_i hpart
    split at h
    · exact Except.noConfusion h
    · rename_i hadm
      split at h
      · exact Except.noConfusion h
      · rename_i hguard
        split at h
        · exact Option.noConfusion (Except.ok.inj h)
        · obtain rfl := Option.some.inj (Except.ok.inj h)
          have hactor : actor ∈ c.admins := by
            have := not_not.mp hadm
            simpa using this
          refine ⟨⟨?_, ?_⟩, List.Nodup.filter _ hwf.2⟩
          · intro a ha
            rcases mem_filter_neb.mp ha with ⟨hin, hne⟩
            exact mem_filter_neb.mpr ⟨hwf.1.1 a hin, hne⟩
          · intro _
            by_cases hta : target = actor
            · subst hta
              exact filter_neb_ne_nil hwf.2 (List.ne_nil_of_mem hactor)
                (fun hc => hguard ⟨rfl, hc.1, hc.2⟩)
            · intro hnil
              have hnil2 : c.admins.filter (fun x => !(x == target)) = [] := hnil
              have hmem : actor ∈ c.admins.filter (fun x => !(x == target)) :=
                mem_filter_neb.mpr ⟨hactor, fun he => hta he.symm⟩
              rw [hnil2] at hmem
              exact List.not_mem_nil _ hmem

theorem addParticipantsConv_wf {c c2 : Conversation} {ps : List String}
    (hwf : GroupWF c) (hadm : c.admins ≠ [])
    (h : addParticipantsConv c ps = .ok c2) : GroupWF c2 := by
  unfold addParticipantsConv at h
  split at h
  · exact Except.noConfusion h
  · obtain rfl := Except.ok.inj h
    refine ⟨⟨?_, ?_⟩, hwf.2⟩
    · intro a ha
      exact mem_jsDedup.mpr (List.mem_append_left _ (hwf.1.1 a ha))
    · intro _
      exact hadm

theorem convUpdateName_wf {c : Conversation} {n : Option String} (hwf : GroupWF c) :
    GroupWF (convUpdateName c n) := by
  cases n with
  | none => exact hwf
  | some s => exact hwf

theorem convUpdateName_admins (c : Conversation) (n : Option String) :
    (convUpdateName c n).admins = c.admins := by
  cases n <;> rfl

theorem convUpdateParts_wf {c : Conversation} {psOpt : Option (List String)}
    (hwf : GroupWF c) (hadm : c.admins ≠ []) : GroupWF (convUpdateParts c psOpt) := by
  cases psOpt with
  | none => exact hwf
  | some ps =>
    refine ⟨⟨?_, ?_⟩, hwf.2⟩
    · intro a ha
      exact mem_jsDedup.mpr (List.mem_append_left _ (hwf.1.1 a ha))
    · intro _
      exact hadm

theorem convUpdateParts_admins (c : Conversation) (psOpt : Option (List String)) :
    (convUpdateParts c psOpt).admins = c.admins := by
  cases psOpt <;> rfl

theorem convUpdateAddAdmins_wf {c : Conversation} {aaOpt : Option (List String)}
    (hwf : GroupWF c) (hadm : c.admins ≠ []) : GroupWF (convUpdateAddAdmins c aaOpt) := by
  cases aaOpt with
  | none => exact hwf
  | some aa =>
    refine ⟨⟨?_, ?_⟩, nodup_jsDedup _⟩
    · intro a ha
      rcases List.mem_append.mp (mem_jsDedup.mp ha) with hin | hin
      · exact hwf.1.1 a hin
      · rcases List.mem_filter.mp hin with ⟨_, hcond⟩
        simp only [Bool.and_eq_true] at hcond
        have h1 := hcond.1
        simpa using h1
    · intro _
      exact jsDedup_ne_nil (by simp [hadm])

theorem convUpdateRemoveAdmins_wf {c c2 : Conversation} {u : String}
    {raOpt : Option (List String)} (hwf : GroupWF c)
    (h : convUpdateRemoveAdmins c u raOpt = .ok c2) : GroupWF c2 := by
  cases raOpt with
  | none =>
    simp only [convUpdateRemoveAdmins, Except.ok.injEq] at h
    subst h
    exact hwf
  | some ra =>
    simp only [convUpdateRemoveAdmins] at h
    split at h
    · exact Except.noConfusion h
    · rename_i hne
      obtain rfl := Except.ok.inj h
      refine ⟨⟨?_, ?_⟩, List.Nodup.filter _ hwf.2⟩
      · intro a ha
        exact hwf.1.1 a (List.mem_filter.mp ha).1
      · intro _
        intro hnil
        exact hne (List.isEmpty_iff.mpr hnil)

theorem updateGroupConv_wf {c c2 : Conversation} {u : String} {n : Option String}
    {ps aa ra : Option (List String)} (hwf : GroupWF c) (hadm : c.admins ≠ [])
    (h : updateGroupConv c u n ps aa ra = .ok c2) : GroupWF c2 := by
  unfold updateGroupConv at h
  have h1 := convUpdateName_wf (n := n) hwf
  have hadm1 : (convUpdateName c n).admins ≠ [] := by
    rw [convUpdateName_admins]; exact hadm
  have h2 := @convUpdateParts_wf (convUpdateName c n) ps h1 hadm1
  have hadm2 : (convUpdateParts (convUpdateName c n) ps).admins ≠ [] := by
    rw [convUpdateParts_admins]; exact hadm1
  have h3 := @convUpdateAddAdmins_wf (convUpdateParts (convUpdateName c n) ps) aa h2 hadm2
  exact convUpdateRemoveAdmins_wf h3 h

/-- One persisted mutation request preserves the group invariant. -/
theorem stepGroup_wf {c c2 : Conversation} {op : GroupOp}
    (hwf : GroupWF c) (h : stepGroup c op = some c2) : GroupWF c2 := by
  cases op with
  | leave u =>
    simp only [stepGroup] at h
    split at h
    · rename_i hcond
      simp only [Bool.and_eq_true] at hcond
      have hu : u ∈ c.participants := by simpa using hcond.2
      cases hlv : leaveGroupConv c u with
      | error e => rw [hlv] at h; obtain rfl := Option.some.inj h; exact hwf
      | ok r =>
        rw [hlv] at h
        cases r with
        | none => exact Option.noConfusion h
        | some c3 =>
          obtain rfl := Option.some.inj h
          exact leaveGroupConv_wf hwf hu hlv
    · obtain rfl := Option.some.inj h; exact hwf
  | removeParticipant actor target =>
    simp only [stepGroup] at h
    split at h
    · cases hrm : removeParticipantConv c actor target with
      | error e => rw [hrm] at h; obtain rfl := Option.some.inj h; exact hwf
      | ok r =>
        rw [hrm] at h
        cases r with
        | none => exact Option.noConfusion h
        | some c3 =>
          obtain rfl := Option.some.inj h
          exact removeParticipantConv_wf hwf hrm
    · obtain rfl := Option.some.inj h; exact hwf
  | addParticipants actor ps =>
    simp only [stepGroup] at h
    split at h
    · rename_i hcond
      simp only [Bool.and_eq_true] at hcond
      have hadm : c.admins ≠ [] := by
        have : actor ∈ c.admins := by simpa using hcond.2
        exact List.ne_nil_of_mem this
      cases hap : addParticipantsConv c ps with
      | error e => rw [hap] at h; obtain rfl := Option.some.inj h; exact hwf
      | ok c3 =>
        rw [hap] at h
        obtain rfl := Option.some.inj h
        exact addParticipantsConv_wf hwf hadm hap
    · obtain rfl := Option.some.inj h; exact hwf
  | updateGroup actor n ps aa ra =>
    simp only [stepGroup] at h
    split at h
    · rename_i hcond
      simp only [Bool.and_eq_true] at hcond
      have hadm : c.admins ≠ [] := by
        have : actor ∈ c.admins := by simpa using hcond.2
        exact List.ne_nil_of_mem this
      cases hup : updateGroupConv c actor n ps aa ra with
      | error e => rw [hup] at h; obtain rfl := Option.some.inj h; exact hwf
      | ok c3 =>
        rw [hup] at h
        obtain rfl := Option.some.inj h
        exact updateGroupConv_wf hwf hadm hup
    · obtain rfl := Option.some.inj h; exact hwf

/-- Invariant preservation over any request sequence. -/
theorem runGroupOps_wf {c c2 : Conversation} {ops : List GroupOp}
    (hwf : GroupWF c) (h : runGroupOps c ops = some c2) : GroupWF c2 := by
  induction ops generalizing c with
  | nil =>
    unfold runGroupOps at h
    obtain rfl := Option.some.inj h
    exact hwf
  | cons op rest ih =>
    unfold runGroupOps at h
    cases hst : stepGroup c op with
    | none => rw [hst] at h; exact Option.noConfusion h
    | some c3 =>
      rw [hst] at h
      exact ih (stepGroup_wf hwf hst) h

/-- C2 — For every group conversation, well-formed as group creation leaves
it, and every sequence of participant/admin mutation requests (leave,
remove participant, add participants, update with admin
promotions/demotions), any surviving state satisfies
`admins ⊆ participants` and a nonempty admin list whenever participants
remain; and a single request that would remove the last admin while other
participants remain — the sole admin leaving, or the sole admin removing
themself — is rejected with a 400 and persists no mutation. -/
theorem c2_admin_invariant (c c2 : Conversation) (ops : List GroupOp)
    (hwf : GroupWF c) (hrun : runGroupOps c ops = some c2) :
    ((∀ a ∈ c2.admins, a ∈ c2.participants) ∧
      (c2.participants ≠ [] → c2.admins ≠ [])) ∧
    (∀ (d : Conversation) (u : String), d.admins = [u] → u ∈ d.participants →
      2 ≤ d.participants.length →
      leaveGroupConv d u = .error .badRequest ∧
      removeParticipantConv d u u = .error .badRequest) := by
  constructor
  · exact (runGroupOps_wf hwf hrun).1
  · intro d u hadm hu _
    constructor
    · unfold leaveGroupConv
      rw [hadm]
      simp
    · unfold removeParticipantConv
      rw [hadm]
      have hc : d.participants.contains u = true := by simpa using hu
      simp [hc]

/-- C2 witness: a two-member group with sole admin `a`; `a` promotes `b`
and then leaves, and the invariant holds on the surviving state. -/
theorem c2_admin_invariant_witness :
    ((∀ x ∈ (Conversation.mk 1 "g" true ["b"] ["b"]).admins,
        x ∈ (Conversation.mk 1 "g" true ["b"] ["b"]).participants) ∧
      ((Conversation.mk 1 "g" true ["b"] ["b"]).participants ≠ [] →
        (Conversation.mk 1 "g" true ["b"] ["b"]).admins ≠ [])) ∧
    (∀ (d : Conversation) (u : String), d.admins = [u] → u ∈ d.participants →
      2 ≤ d.participants.length →
      leaveGroupConv d u = .error .badRequest ∧
      removeParticipantConv d u u = .error .badRequest) :=
  c2_admin_invariant (Conversation.mk 1 "g" true ["a", "b"] ["a"])
    (Conversation.mk 1 "g" true ["b"] ["b"])
    [GroupOp.updateGroup "a" none none (some ["b"]) none, GroupOp.leave "a"]
    (by refine ⟨⟨?_, ?_⟩, ?_⟩ <;> decide) (by decide)

/-- C10 — Both group-creation paths (`createGroupConversation` in the
controller and the model's `createGroup`) produce a conversation whose
participant list contains the creator, is duplicate-free even when the
creator also appears in the supplied list, and whose admin list is exactly
`[creator]`; the result is well-formed for the admin invariant. -/
theorem c10_create_group_admins (newId : Nat) (creatorId name : String)
    (participants : List String) :
    (creatorId ∈ (createGroupConversation newId creatorId name participants).participants ∧
      (createGroupConversation newId creatorId name participants).participants.Nodup ∧
      (createGroupConversation newId creatorId name participants).admins = [creatorId] ∧
      GroupWF (createGroupConversation newId creatorId name participants)) ∧
    (creatorId ∈ (createGroup newId creatorId name participants).participants ∧
      (createGroup newId creatorId name participants).participants.Nodup ∧
      (createGroup newId creatorId name participants).admins = [creatorId] ∧
      GroupWF (createGroup newId creatorId name participants)) := by
  have hmem1 : creatorId ∈ (createGroupConversation newId creatorId name
      participants).participants :=
    mem_jsDedup.mpr (List.mem_append_right _ (List.mem_singleton_self _))
  have hmem2 : creatorId ∈ (createGroup newId creatorId name participants).participants :=
    mem_jsDedup.mpr (List.mem_cons_self _ _)
  refine ⟨⟨hmem1, nodup_jsDedup _, rfl, ⟨⟨?_, ?_⟩, ?_⟩⟩,
    ⟨hmem2, nodup_jsDedup _, rfl, ⟨⟨?_, ?_⟩, ?_⟩⟩⟩
  · intro a ha
    rcases List.mem_singleton.mp ha with rfl
    exact hmem1
  · intro _
    exact List.cons_ne_nil _ _
  · exact List.nodup_singleton _
  · intro a ha
    rcases List.mem_singleton.mp ha with rfl
    exact hmem2
  · intro _
    exact List.cons_ne_nil _ _
  · exact List.nodup_singleton _

/-! ### C9 — idempotence of `findOrCreateDirect` -/

theorem isDirectBetween_symm (u1 u2 : String) :
    isDirectBetween u1 u2 = isDirectBetween u2 u1 := by
  funext c
  unfold isDirectBetween
  cases hca : c.participants.contains u1 <;>
    cases hcb : c.participants.contains u2 <;> simp [hca, hcb]

/-- C9 — `findOrCreateDirect` is idempotent and order-independent: after one
call, a second call with the same pair — in either argument order — returns
the very conversation of the first call and leaves the store unchanged
(no duplicate direct conversation is created). -/
theorem c9_findOrCreateDirect_idempotent (convs : List Conversation)
    (a b : String) (n1 n2 : Nat) :
    ((findOrCreateDirect (findOrCreateDirect convs a b n1).2 a b n2).1
        = (findOrCreateDirect convs a b n1).1 ∧
      (findOrCreateDirect (findOrCreateDirect convs a b n1).2 a b n2).2
        = (findOrCreateDirect convs a b n1).2) ∧
    ((findOrCreateDirect (findOrCreateDirect convs a b n1).2 b a n2).1
        = (findOrCreateDirect convs a b n1).1 ∧
      (findOrCreateDirect (findOrCreateDirect convs a b n1).2 b a n2).2
        = (findOrCreateDirect convs a b n1).2) := by
  have hsym : isDirectBetween b a = isDirectBetween a b := isDirectBetween_symm b a
  cases hfind : convs.find? (isDirectBetween a b) with
  | some c =>
    have h1 : findOrCreateDirect convs a b n1 = (c, convs) := by
      unfold findOrCreateDirect
      rw [hfind]
    rw [h1]
    have h2 : findOrCreateDirect convs a b n2 = (c, convs) := by
      unfold findOrCreateDirect
      rw [hfind]
    have h3 : findOrCreateDirect convs b a n2 = (c, convs) := by
      unfold findOrCreateDirect
      rw [hsym, hfind]
    rw [h2, h3]
    exact ⟨⟨rfl, rfl⟩, ⟨rfl, rfl⟩⟩
  | none =>
    have hnew : isDirectBetween a b
        (Conversation.mk n1 "" false [a, b] []) = true := by
      unfold isDirectBetween
      simp
    have hnew2 : isDirectBetween b a
        (Conversation.mk n1 "" false [a, b] []) = true := by
      rw [hsym]
      exact hnew
    have h1 : findOrCreateDirect convs a b n1 =
        (Conversation.mk n1 "" false [a, b] [],
          convs ++ [Conversation.mk n1 "" false [a, b] []]) := by
      unfold findOrCreateDirect
      rw [hfind]
    rw [h1]
    have hfind2 : (convs ++ [Conversation.mk n1 "" false [a, b] []]).find?
        (isDirectBetween a b) = some (Conversation.mk n1 "" false [a, b] []) := by
      rw [List.find?_append, hfind]
      simp [hnew]
    have hfind3 : (convs ++ [Conversation.mk n1 "" false [a, b] []]).find?
        (isDirectBetween b a) = some (Conversation.mk n1 "" false [a, b] []) := by
      rw [hsym]
      exact hfind2
    have h2 : findOrCreateDirect (convs ++ [Conversation.mk n1 "" false [a, b] []])
        a b n2 = (Conversation.mk n1 "" false [a, b] [],
          convs ++ [Conversation.mk n1 "" false [a, b] []]) := by
      unfold findOrCreateDirect
      rw [hfind2]
    have h3 : findOrCreateDirect (convs ++ [Conversation.mk n1 "" false [a, b] []])
        b a n2 = (Conversation.mk n1 "" false [a, b] [],
          convs ++ [Conversation.mk n1 "" false [a, b] []]) := by
      unfold findOrCreateDirect
      rw [hfind3]
    rw [h2, h3]
    exact ⟨⟨rfl, rfl⟩, ⟨rfl, rfl⟩⟩

/-! ### MessagingFacade — store-level operations of the message controller
and the socket handler -/

/-- One `io.to(room).emit(event, payload)` call; `content` is the payload's
content field (empty when the payload carries none). -/
structure Emit where
  room : String
  event : String
  content : String
deriving DecidableEq, Repr

/-- `sendMessage` (messageController.js lines 74–128):
`findOne({_id: conversationId, participants: {$all: [senderId,
recipientId]}})`, 403 on a miss; then the message document is saved with
`content` exactly as received — the source comments `// Will be encrypted
by pre-save hook`, but `MessageSchema` (src/server/models/Message.js) has
no pre-save hook, and `isEncrypted` defaults to `true`.  No conversation is
ever created here. -/
def sendMessage (s : Store) (senderId recipientId : String) (conversationId : Nat)
    (content : String) (newId ts : Nat) : Except Err (Store × Message) :=
  match s.convs.find? (fun c => c.id == conversationId &&
      c.participants.contains senderId && c.participants.contains recipientId) with
  | none => .error .forbidden
  | some _ =>
    .ok ({ s with msgs := s.msgs ++
        [⟨newId, conversationId, senderId, recipientId, content, true, false, ts⟩] },
      ⟨newId, conversationId, senderId, recipientId, content, true, false, ts⟩)

/-- socket.js `send_message` handler (lines 40–90): reject empty/missing
fields, encrypt through `encryptMessage`, save the message — with no
conversation lookup or creation — then emit `receive_message` (with the
original decrypted content) to the recipient's room `user_<id>` and
`message_sent` back to the sender's connection. -/
def socketSendMessage (enc : List Nat → String → List Nat) (iv : List Nat)
    (s : Store) (senderId recipientId : String) (conversationId : Nat)
    (content : String) (newId ts : Nat) : Except String (Store × List Emit) :=
  if content = "" then .error "Missing required fields"
  else
    .ok ({ s with msgs := s.msgs ++
        [⟨newId, conversationId, senderId, recipientId,
          encryptMessage enc iv content, true, false, ts⟩] },
      [⟨"user_" ++ recipientId, "receive_message", content⟩,
        ⟨"user_" ++ senderId, "message_sent", content⟩])

/-- Set `read := true` on the first message matching `p` (the one document a
Mongo `findOneAndUpdate`/`save` writes). -/
def setReadFirst (p : Message → Bool) : List Message → List Message
  | [] => []
  | m :: rest =>
    if p m then { m with read := true } :: rest
    else m :: setReadFirst p rest

/-- `markAsRead` (messageController.js lines 133–156):
`findOneAndUpdate({_id: messageId, recipient: userId}, {read: true})`; a
miss — the message does not exist, or the caller is not its recipient —
answers 404 `'Message not found'` and writes nothing. -/
def markAsRead (s : Store) (messageId : Nat) (userId : String) :
    Store × Except Err Message :=
  match s.msgs.find? (fun m => m.id == messageId && m.recipient == userId) with
  | none => (s, .error .notFound)
  | some m =>
    ({ s with
        msgs := setReadFirst
          (fun x => x.id == messageId && x.recipient == userId) s.msgs },
      .ok { m with read := true })

/-- socket.js `message_read` handler (lines 100–114): `findById`, and only
when the caller is the recipient set `read` and notify the sender; any
other case does nothing and emits nothing. -/
def socketMessageRead (s : Store) (messageId : Nat) (userId : String) :
    Store × List Emit :=
  match s.msgs.find? (fun m => m.id == messageId) with
  | none => (s, [])
  | some m =>
    if m.recipient == userId then
      ({ s with msgs := setReadFirst (fun x => x.id == messageId) s.msgs },
        [⟨"user_" ++ m.sender, "message_read", ""⟩])
    else (s, [])

/-- `getConversationById` (messageController.js lines 673–713):
`findOne({_id, participants: userId})`, 404 `'Conversation not found'` on a
miss. -/
def getConversationById (s : Store) (conversationId : Nat) (userId : String) :
    Except Err Conversation :=
  match s.convs.find? (fun c => c.id == conversationId &&
      c.participants.contains userId) with
  | none => .error .notFound
  | some c => .ok c

/-- Mongoose `conversation.save()`: write the updated document back. -/
def replaceConv (convs : List Conversation) (c2 : Conversation) :
    List Conversation :=
  convs.map (fun c => if c.id == c2.id then c2 else c)

/-- `leaveGroup` at store level (messageController.js lines 218–303): find
the group with the leaver as participant (404 on a miss), run the
guard/mutation core, and on an emptied participant list delete the
conversation (`Conversation.findByIdAndDelete`) — the handler never touches
the `Message` collection. -/
def storeLeaveGroup (s : Store) (conversationId : Nat) (userId : String) :
    Except Err Store :=
  match s.convs.find? (fun c => c.id == conversationId && c.isGroup &&
      c.participants.contains userId) with
  | none => .error .notFound
  | some c =>
    match leaveGroupConv c userId with
    | .error e => .error e
    | .ok none =>
      .ok { s with convs := s.convs.filter (fun x => !(x.id == conversationId)) }
    | .ok (some c2) => .ok { s with convs := replaceConv s.convs c2 }

/-- `removeParticipantFromGroup` at store level (lines 308–404): analogous;
the emptied-conversation branch likewise deletes only the conversation
document, never its messages. -/
def storeRemoveParticipant (s : Store) (conversationId : Nat)
    (currentUserId participantId : String) : Except Err Store :=
  match s.convs.find? (fun c => c.id == conversationId && c.isGroup &&
      c.participants.contains currentUserId) with
  | none => .error .notFound
  | some c =>
    match removeParticipantConv c currentUserId participantId with
    | .error e => .error e
    | .ok none =>
      .ok { s with convs := s.convs.filter (fun x => !(x.id == conversationId)) }
    | .ok (some c2) => .ok { s with convs := replaceConv s.convs c2 }

/-- Equality of `Except` results is decidable (used to evaluate the
operations at concrete inputs). -/
instance {e a : Type} [DecidableEq e] [DecidableEq a] : DecidableEq (Except e a) :=
  fun x y =>
    match x, y with
    | .error a1, .error a2 =>
      if h : a1 = a2 then isTrue (by rw [h])
      else isFalse (fun hc => by cases hc; exact h rfl)
    | .ok a1, .ok a2 =>
      if h : a1 = a2 then isTrue (by rw [h])
      else isFalse (fun hc => by cases hc; exact h rfl)
    | .error _, .ok _ => isFalse (fun hc => by cases hc)
    | .ok _, .error _ => isFalse (fun hc => by cases hc)

/-! ### C1 — what each send path persists -/

/-- C1 — Evaluation at the failing input: in an existing direct conversation
between alice and bob, the HTTP `sendMessage` persists the caller's
plaintext `"hello"` verbatim with `isEncrypted = true` (the `MessageSchema`
has no pre-save encryption hook, contrary to the handler's own comment);
every `encryptMessage` envelope contains a colon while the stored
`"hello"` does not, so the stored content is not a ciphertext envelope.
The socket path, by contrast, does store the envelope. -/
theorem c1_http_send_stores_plaintext :
    sendMessage (Store.mk [⟨5, "", false, ["alice", "bob"], []⟩] [])
        "alice" "bob" 5 "hello" 1 10 =
      .ok (Store.mk [⟨5, "", false, ["alice", "bob"], []⟩]
          [⟨1, 5, "alice", "bob", "hello", true, false, 10⟩],
        ⟨1, 5, "alice", "bob", "hello", true, false, 10⟩) ∧
    (∀ (enc : List Nat → String → List Nat) (iv : List Nat) (p : String),
      ':' ∈ (encryptMessage enc iv p).data) ∧
    ':' ∉ "hello".data ∧
    socketSendMessage (fun _ _ => [171]) (List.replicate 16 0)
        (Store.mk [⟨5, "", false, ["alice", "bob"], []⟩] [])
        "alice" "bob" 5 "hello" 1 10 =
      .ok (Store.mk [⟨5, "", false, ["alice", "bob"], []⟩]
          [⟨1, 5, "alice", "bob",
            "00000000000000000000000000000000:ab", true, false, 10⟩],
        [⟨"user_bob", "receive_message", "hello"⟩,
          ⟨"user_alice", "message_sent", "hello"⟩]) := by
  refine ⟨by decide, ?_, by decide, by decide⟩
  intro enc iv p
  show ':' ∈ hexChars iv ++ ':' :: hexChars (enc iv p)
  exact List.mem_append_right _ (List.mem_cons_self _ _)

/-! ### C4 — sending with no prior conversation -/

/-- C4 counterexample — with no conversation between alice and bob, the HTTP
send fails with 403 instead of resolving/creating a direct conversation,
and the socket send creates no conversation either: the claim's
"resolves/creates a direct conversation … rather than failing" is false on
the code. -/
theorem c4_counterexample :
    sendMessage (Store.mk [] []) "alice" "bob" 5 "hello" 1 10 =
      .error .forbidden ∧
    (socketSendMessage (fun _ _ => [171]) (List.replicate 16 0) (Store.mk [] [])
        "alice" "bob" 5 "hello" 1 10).toOption.map (fun r => r.1.convs) =
      some [] := by
  exact ⟨by decide, by decide⟩

/-- C4 amended — when no conversation contains both users, the HTTP
`sendMessage` fails with 403 and persists nothing (it never creates a
conversation), while the socket `send_message` handler persists the
encrypted message without any conversation lookup or creation and emits
`receive_message`, carrying the decrypted content, to the recipient's
channel (and `message_sent` back to the sender). -/
theorem c4_amended (s : Store) (senderId recipientId : String) (cid : Nat)
    (content : String) (nid ts : Nat)
    (enc : List Nat → String → List Nat) (iv : List Nat)
    (hno : ∀ c ∈ s.convs, ¬ (c.id = cid ∧ senderId ∈ c.participants ∧
      recipientId ∈ c.participants))
    (hcontent : content ≠ "") :
    sendMessage s senderId recipientId cid content nid ts = .error .forbidden ∧
    socketSendMessage enc iv s senderId recipientId cid content nid ts =
      .ok ({ s with msgs := s.msgs ++
          [⟨nid, cid, senderId, recipientId,
            encryptMessage enc iv content, true, false, ts⟩] },
        [⟨"user_" ++ recipientId, "receive_message", content⟩,
          ⟨"user_" ++ senderId, "message_sent", content⟩]) := by
  constructor
  · unfold sendMessage
    have hfind : s.convs.find? (fun c => c.id == cid &&
        c.participants.contains senderId &&
        c.participants.contains recipientId) = none := by
      rw [List.find?_eq_none]
      intro c hc
      intro hp
      apply hno c hc
      simp only [Bool.and_eq_true, beq_iff_eq] at hp
      refine ⟨hp.1.1, ?_, ?_⟩
      · have := hp.1.2
        simpa using this
      · have := hp.2
        simpa using this
    rw [hfind]
  · unfold socketSendMessage
    rw [if_neg hcontent]

/-- C4 witness: the amended theorem at a store with no conversations. -/
theorem c4_amended_witness :
    sendMessage (Store.mk [] []) "alice" "bob" 5 "hello" 1 10 =
      .error .forbidden ∧
    socketSendMessage (fun _ _ => [171]) (List.replicate 16 0) (Store.mk [] [])
        "alice" "bob" 5 "hello" 1 10 =
      .ok ({ Store.mk [] [] with msgs := [] ++
          [⟨1, 5, "alice", "bob",
            encryptMessage (fun _ _ => [171]) (List.replicate 16 0) "hello",
            true, false, 10⟩] },
        [⟨"user_" ++ "bob", "receive_message", "hello"⟩,
          ⟨"user_" ++ "alice", "message_sent", "hello"⟩]) :=
  c4_amended (Store.mk [] []) "alice" "bob" 5 "hello" 1 10
    (fun _ _ => [171]) (List.replicate 16 0) (by simp) (by decide)

/-! ### C3 — removing the last participant -/

/-- C3 counterexample — a state on which `leaveGroup` reaches its
empty-participants branch: the conversation is deleted (and `getById`
subsequently 404s), but its message is NOT deleted — `leaveGroup` never
calls `Message.deleteMany`, so the claim's "all of its messages are deleted"
is false.  (The branch requires an admin list not contained in the
participant list; from invariant-respecting group states, the sole-admin
guard makes the branch unreachable.) -/
theorem c3_counterexample :
    storeLeaveGroup
        (Store.mk [⟨7, "g", true, ["u"], ["a", "b"]⟩]
          [⟨1, 7, "x", "y", "m", true, false, 1⟩]) 7 "u" =
      .ok (Store.mk [] [⟨1, 7, "x", "y", "m", true, false, 1⟩]) ∧
    getConversationById
        (Store.mk [] [⟨1, 7, "x", "y", "m", true, false, 1⟩]) 7 "u" =
      .error .notFound := by
  exact ⟨by decide, by decide⟩

theorem leaveGroupConv_ok_some {c c2 : Conversation} {u : String}
    (h : leaveGroupConv c u = .ok (some c2)) :
    c2.participants ≠ [] ∧ c2.id = c.id := by
  unfold leaveGroupConv at h
  split at h
  · exact Except.noConfusion h
  · split at h
    · exact Option.noConfusion (Except.ok.inj h)
    · rename_i hps
      obtain rfl := Option.some.inj (Except.ok.inj h)
      exact ⟨fun hnil => hps (List.isEmpty_iff.mpr hnil), rfl⟩

theorem removeParticipantConv_ok_some {c c2 : Conversation} {actor target : String}
    (h : removeParticipantConv c actor target = .ok (some c2)) :
    c2.participants ≠ [] ∧ c2.id = c.id := by
  unfold removeParticipantConv at h
  split at h
  · exact Except.noConfusion h
  · split at h
    · exact Except.noConfusion h
    · split at h
      · exact Except.noConfusion h
      · split at h
        · exact Option.noConfusion (Except.ok.inj h)
        · rename_i hps
          obtain rfl := Option.some.inj (Except.ok.inj h)
          exact ⟨fun hnil => hps (List.isEmpty_iff.mpr hnil), rfl⟩

theorem mem_replaceConv {convs : List Conversation} {c2 x : Conversation}
    (h : x ∈ replaceConv convs c2) : x = c2 ∨ (x ∈ convs ∧ x.id ≠ c2.id) := by
  unfold replaceConv at h
  rcases List.mem_map.mp h with ⟨y, hy, hxy⟩
  by_cases hid : y.id == c2.id
  · rw [if_pos hid] at hxy
    exact Or.inl hxy.symm
  · rw [if_neg hid] at hxy
    subst hxy
    exact Or.inr ⟨hy, by simpa using hid⟩

theorem getConversationById_miss {s : Store} {cid : Nat} {u : String}
    (h : ∀ c ∈ s.convs, c.id ≠ cid) :
    getConversationById s cid u = .error .notFound := by
  unfold getConversationById
  have hf : s.convs.find?
      (fun c => c.id == cid && c.participants.contains u) = none := by
    rw [List.find?_eq_none]
    intro c hc hp
    simp only [Bool.and_eq_true, beq_iff_eq] at hp
    exact h c hc hp.1
  rw [hf]

/-- C3 amended — when `leaveGroup` or `removeParticipantFromGroup`
succeeds: the message collection is always left untouched (messages are
never cascade-deleted on these paths), no conversation under the target id
survives with an empty participant list, and once no conversation under
that id remains, `getById` fails with 404 `NotFound`. -/
theorem c3_amended
    (s1 : Store) (cid1 : Nat) (u : String) (t1 : Store)
    (s2 : Store) (cid2 : Nat) (actor target : String) (t2 : Store)
    (h1 : storeLeaveGroup s1 cid1 u = .ok t1)
    (h2 : storeRemoveParticipant s2 cid2 actor target = .ok t2) :
    (t1.msgs = s1.msgs ∧
      (∀ c ∈ t1.convs, c.id = cid1 → c.participants ≠ []) ∧
      ((∀ c ∈ t1.convs, c.id ≠ cid1) →
        getConversationById t1 cid1 u = .error .notFound)) ∧
    (t2.msgs = s2.msgs ∧
      (∀ c ∈ t2.convs, c.id = cid2 → c.participants ≠ []) ∧
      ((∀ c ∈ t2.convs, c.id ≠ cid2) →
        getConversationById t2 cid2 actor = .error .notFound)) := by
  constructor
  · unfold storeLeaveGroup at h1
    cases hf : s1.convs.find? (fun c => c.id == cid1 && c.isGroup &&
        c.participants.contains u) with
    | none => rw [hf] at h1; exact Except.noConfusion h1
    | some c =>
      have hcid : c.id = cid1 := by
        have hp := List.find?_some hf
        simp only [Bool.and_eq_true, beq_iff_eq] at hp
        exact hp.1.1
      have h1b : (match leaveGroupConv c u with
          | Except.error e => Except.error e
          | Except.ok none => Except.ok { s1 with
              convs := s1.convs.filter (fun x => !(x.id == cid1)) }
          | Except.ok (some c2) => Except.ok { s1 with
              convs := replaceConv s1.convs c2 }) = Except.ok t1 := by
        rw [← h1, hf]
      split at h1b
      · exact Except.noConfusion h1b
      · obtain rfl := Except.ok.inj h1b
        refine ⟨rfl, ?_, fun hno => getConversationById_miss hno⟩
        intro x hx hxid
        rcases List.mem_filter.mp hx with ⟨_, hb⟩
        exact absurd hxid (by simpa using hb)
      · rename_i c2 hlv
        obtain rfl := Except.ok.inj h1b
        have hprops := leaveGroupConv_ok_some hlv
        refine ⟨rfl, ?_, fun hno => getConversationById_miss hno⟩
        intro x hx hxid
        rcases mem_replaceConv hx with rfl | ⟨_, hne⟩
        · exact hprops.1
        · exact absurd (hxid.trans (hcid.symm.trans hprops.2.symm)) hne
  · unfold storeRemoveParticipant at h2
    cases hf : s2.convs.find? (fun c => c.id == cid2 && c.isGroup &&
        c.participants.contains actor) with
    | none => rw [hf] at h2; exact Except.noConfusion h2
    | some c =>
      have hcid : c.id = cid2 := by
        have hp := List.find?_some hf
        simp only [Bool.and_eq_true, beq_iff_eq] at hp
        exact hp.1.1
      have h2b : (match removeParticipantConv c actor target with
          | Except.error e => Except.error e
          | Except.ok none => Except.ok { s2 with
              convs := s2.convs.filter (fun x => !(x.id == cid2)) }
          | Except.ok (some c2) => Except.ok { s2 with
              convs := replaceConv s2.convs c2 }) = Except.ok t2 := by
        rw [← h2, hf]
      split at h2b
      · exact Except.noConfusion h2b
      · obtain rfl := Except.ok.inj h2b
        refine ⟨rfl, ?_, fun hno => getConversationById_miss hno⟩
        intro x hx hxid
        rcases List.mem_filter.mp hx with ⟨_, hb⟩
        exact absurd hxid (by simpa using hb)
      · rename_i c2 hrm
        obtain rfl := Except.ok.inj h2b
        have hprops := removeParticipantConv_ok_some hrm
        refine ⟨rfl, ?_, fun hno => getConversationById_miss hno⟩
        intro x hx hxid
        rcases mem_replaceConv hx with rfl | ⟨_, hne⟩
        · exact hprops.1
        · exact absurd (hxid.trans (hcid.symm.trans hprops.2.symm)) hne

/-- C3 witness: the amended theorem at a concrete leave (which deletes the
conversation) and a concrete participant removal (which keeps it). -/
theorem c3_amended_witness :
    ((Store.mk [] [⟨1, 7, "x", "y", "m", true, false, 1⟩]).msgs =
        (Store.mk [⟨7, "g", true, ["u"], ["a", "b"]⟩]
          [⟨1, 7, "x", "y", "m", true, false, 1⟩]).msgs ∧
      (∀ c ∈ (Store.mk [] [⟨1, 7, "x", "y", "m", true, false, 1⟩]).convs,
        c.id = 7 → c.participants ≠ []) ∧
      ((∀ c ∈ (Store.mk [] [⟨1, 7, "x", "y", "m", true, false, 1⟩]).convs,
          c.id ≠ 7) →
        getConversationById (Store.mk [] [⟨1, 7, "x", "y", "m", true, false, 1⟩])
          7 "u" = .error .notFound)) ∧
    ((Store.mk [⟨8, "h", true, ["a"], ["a"]⟩] []).msgs =
        (Store.mk [⟨8, "h", true, ["a", "b"], ["a"]⟩] []).msgs ∧
      (∀ c ∈ (Store.mk [⟨8, "h", true, ["a"], ["a"]⟩] []).convs,
        c.id = 8 → c.participants ≠ []) ∧
      ((∀ c ∈ (Store.mk [⟨8, "h", true, ["a"], ["a"]⟩] []).convs, c.id ≠ 8) →
        getConversationById (Store.mk [⟨8, "h", true, ["a"], ["a"]⟩] []) 8 "a" =
          .error .notFound)) :=
  c3_amended
    (Store.mk [⟨7, "g", true, ["u"], ["a", "b"]⟩]
      [⟨1, 7, "x", "y", "m", true, false, 1⟩]) 7 "u"
    (Store.mk [] [⟨1, 7, "x", "y", "m", true, false, 1⟩])
    (Store.mk [⟨8, "h", true, ["a", "b"], ["a"]⟩] []) 8 "a" "b"
    (Store.mk [⟨8, "h", true, ["a"], ["a"]⟩] [])
    (by decide) (by decide)

/-! ### C8 — `markRead` and its authorization -/

/-- C8 counterexample — a non-recipient attempt on an existing message does
not fail with an `AuthorizationError` (403): the code answers 404
`'Message not found'` (`NotFoundError`-class), leaving the store unchanged;
the socket handler is silent. -/
theorem c8_counterexample :
    markAsRead (Store.mk [] [⟨1, 5, "sam", "bob", "m", true, false, 1⟩])
        1 "mallory" =
      (Store.mk [] [⟨1, 5, "sam", "bob", "m", true, false, 1⟩],
        .error Err.notFound) ∧
    Err.notFound ≠ Err.forbidden ∧
    Err.statusCode Err.notFound = 404 ∧
    Err.statusCode Err.forbidden = 403 := by
  exact ⟨by decide, by decide, rfl, rfl⟩

/-- C8 amended — `markAsRead` flips `read` only when the caller is the
message's recipient: an attempt by a non-recipient (or on an absent
message) answers 404 `NotFound` — not an `AuthorizationError` — and leaves
the store completely unchanged; the socket `message_read` handler likewise
leaves the store unchanged and emits nothing; and whenever `markAsRead`
succeeds, the returned message has the caller as recipient with `read`
set. -/
theorem c8_amended (s : Store) (mid : Nat) (u : String)
    (hnr : ∀ m ∈ s.msgs, m.id = mid → m.recipient ≠ u) :
    (markAsRead s mid u).1 = s ∧
    (markAsRead s mid u).2 = .error Err.notFound ∧
    Err.statusCode Err.notFound = 404 ∧
    (socketMessageRead s mid u).1 = s ∧
    (socketMessageRead s mid u).2 = [] ∧
    (∀ (s2 t : Store) (mid2 : Nat) (u2 : String) (m : Message),
      markAsRead s2 mid2 u2 = (t, .ok m) → m.recipient = u2 ∧ m.read = true) := by
  have hfind : s.msgs.find? (fun m => m.id == mid && m.recipient == u) = none := by
    rw [List.find?_eq_none]
    intro m hm hp
    simp only [Bool.and_eq_true, beq_iff_eq] at hp
    exact hnr m hm hp.1 hp.2
  have hmark : markAsRead s mid u = (s, .error Err.notFound) := by
    unfold markAsRead
    rw [hfind]
  have hsock : socketMessageRead s mid u = (s, []) := by
    unfold socketMessageRead
    cases hf2 : s.msgs.find? (fun m => m.id == mid) with
    | none => rfl
    | some m =>
      have hm : m ∈ s.msgs := List.mem_of_find?_eq_some hf2
      have hid : m.id = mid := by
        have := List.find?_some hf2
        simpa using this
      have : ¬ (m.recipient == u) = true := by
        simp only [beq_iff_eq]
        exact hnr m hm hid
      show (if m.recipient == u then
          ({ s with msgs := setReadFirst (fun x => x.id == mid) s.msgs },
            [Emit.mk ("user_" ++ m.sender) "message_read" ""])
        else (s, [])) = (s, [])
      rw [if_neg this]
  refine ⟨by rw [hmark], by rw [hmark], rfl, by rw [hsock], by rw [hsock], ?_⟩
  intro s2 t mid2 u2 m hok
  unfold markAsRead at hok
  cases hf2 : s2.msgs.find? (fun x => x.id == mid2 && x.recipient == u2) with
  | none =>
    rw [hf2] at hok
    have := congrArg Prod.snd hok
    exact Except.noConfusion this
  | some m0 =>
    rw [hf2] at hok
    have hsnd := congrArg Prod.snd hok
    have hm0 : Except.ok { m0 with read := true } = Except.ok m := hsnd
    obtain rfl := Except.ok.inj hm0
    have hp := List.find?_some hf2
    simp only [Bool.and_eq_true, beq_iff_eq] at hp
    exact ⟨hp.2, rfl⟩

/-- C8 witness: the amended theorem at a non-recipient caller on a concrete
store. -/
theorem c8_amended_witness :
    (markAsRead (Store.mk [] [⟨1, 5, "sam", "bob", "m", true, false, 1⟩])
        1 "mallory").1 =
      Store.mk [] [⟨1, 5, "sam", "bob", "m", true, false, 1⟩] ∧
    (markAsRead (Store.mk [] [⟨1, 5, "sam", "bob", "m", true, false, 1⟩])
        1 "mallory").2 = .error Err.notFound ∧
    Err.statusCode Err.notFound = 404 ∧
    (socketMessageRead (Store.mk [] [⟨1, 5, "sam", "bob", "m", true, false, 1⟩])
        1 "mallory").1 =
      Store.mk [] [⟨1, 5, "sam", "bob", "m", true, false, 1⟩] ∧
    (socketMessageRead (Store.mk [] [⟨1, 5, "sam", "bob", "m", true, false, 1⟩])
        1 "mallory").2 = [] ∧
    (∀ (s2 t : Store) (mid2 : Nat) (u2 : String) (m : Message),
      markAsRead s2 mid2 u2 = (t, .ok m) → m.recipient = u2 ∧ m.read = true) :=
  c8_amended (Store.mk [] [⟨1, 5, "sam", "bob", "m", true, false, 1⟩])
    1 "mallory" (by decide)

/-! ### MessageStore.page — `getMessages` (messageController.js lines
10–69) -/

/-- The Mongo query of `getMessages`: `{conversationId}` plus
`createdAt: {$lt: before}` when a cursor is given. -/
def msgMatches (conversationId : Nat) (before : Option Nat) (m : Message) : Bool :=
  m.conversationId == conversationId &&
    (match before with
     | none => true
     | some t => decide (m.createdAt < t))

/-- `.sort({createdAt: -1})`: newest first (weak order on timestamps). -/
def newestFirst (a b : Message) : Prop := b.createdAt ≤ a.createdAt

instance : DecidableRel newestFirst := fun a b => Nat.decLe b.createdAt a.createdAt

instance : IsTotal Message newestFirst := ⟨fun a b => Nat.le_total b.createdAt a.createdAt⟩

instance : IsTrans Message newestFirst := ⟨fun _ _ _ h1 h2 => Nat.le_trans h2 h1⟩

/-- The store's newest-first ordering of a message list. -/
def sortDesc (l : List Message) : List Message := l.insertionSort newestFirst

/-- Strictly newer — the ordering `sortDesc` realizes once the timestamps in
play are pairwise distinct. -/
def strictNewer (a b : Message) : Prop := b.createdAt < a.createdAt

instance : IsAntisymm Message strictNewer :=
  ⟨fun _ _ h1 h2 => absurd h1 (Nat.lt_asymm h2)⟩

instance : IsTrans Message strictNewer := ⟨fun _ _ _ h1 h2 => Nat.lt_trans h2 h1⟩

/-- Chronological (oldest-first) order, as the endpoint returns pages. -/
def sortAsc (l : List Message) : List Message := (sortDesc l).reverse

/-- The page computation of `getMessages`: fetch `limit + 1` newest-first
records older than the cursor, set `hasMore` when the extra record arrived,
`pop` it, and reverse into chronological order. -/
def pageFetch (msgs : List Message) (conversationId : Nat)
    (before : Option Nat) (limit : Nat) : List Message × Bool :=
  ((if decide (limit <
        ((sortDesc (msgs.filter (msgMatches conversationId before))).take
          (limit + 1)).length) then
      ((sortDesc (msgs.filter (msgMatches conversationId before))).take
        (limit + 1)).dropLast
    else
      (sortDesc (msgs.filter (msgMatches conversationId before))).take
        (limit + 1)).reverse,
    decide (limit <
      ((sortDesc (msgs.filter (msgMatches conversationId before))).take
        (limit + 1)).length))

/-- The per-message decryption of `getMessages`: encrypted content is
decrypted, and a failure degrades to the sentinel without touching the
other messages. -/
def decryptView (dec : List Nat → List Nat → Option String) (m : Message) :
    Message :=
  if m.isEncrypted then
    match decryptMessage dec m.content with
    | some p => { m with content := p }
    | none => { m with content := "[Message decryption failed]" }
  else m

/-- `getMessages`: membership check (403 on a miss), page fetch, per-message
decryption, chronological order plus `hasMore`. -/
def getMessages (dec : List Nat → List Nat → Option String)
    (convs : List Conversation) (msgs : List Message) (userId : String)
    (conversationId : Nat) (limit : Nat) (before : Option Nat) :
    Except Err (List Message × Bool) :=
  match convs.find? (fun c => c.id == conversationId &&
      c.participants.contains userId) with
  | none => .error .forbidden
  | some _ =>
    .ok ((pageFetch msgs conversationId before limit).1.map (decryptView dec),
      (pageFetch msgs conversationId before limit).2)

/-- A client following `before` cursors: request a page; while
`hasMore`, request again with the oldest returned timestamp as the cursor;
older pages are accumulated in front, so the result is one chronological
list. -/
def collectPages (msgs : List Message) (conversationId limit : Nat) :
    Nat → Option Nat → List Message
  | 0, _ => []
  | fuel + 1, cur =>
    match pageFetch msgs conversationId cur limit with
    | (pg, false) => pg
    | (pg, true) =>
      match pg.head? with
      | some m =>
        collectPages msgs conversationId limit fuel (some m.createdAt) ++ pg
      | none => pg

/-! ### Sorting facts -/

theorem sortDesc_sorted (l : List Message) : List.Sorted newestFirst (sortDesc l) :=
  List.sorted_insertionSort newestFirst l

theorem sortDesc_perm (l : List Message) : List.Perm (sortDesc l) l :=
  List.perm_insertionSort newestFirst l

/-- Distinct timestamps upgrade the weak order to the strict one. -/
theorem sorted_strict_of_nodup {l : List Message}
    (hs : List.Sorted newestFirst l)
    (hnd : (l.map Message.createdAt).Nodup) : List.Sorted strictNewer l := by
  have hne : List.Pairwise (fun a b : Message => a.createdAt ≠ b.createdAt) l :=
    List.pairwise_map.mp hnd
  exact (hs.and hne).imp (fun h => Nat.lt_of_le_of_ne h.1 (fun he => h.2 he.symm))

/-- The last element of a newest-first list carries its minimal timestamp. -/
theorem getLast_createdAt_le {A : List Message}
    (hs : List.Sorted newestFirst A) (hne : A ≠ []) :
    ∀ a ∈ A, (A.getLast hne).createdAt ≤ a.createdAt := by
  induction A with
  | nil => exact absurd rfl hne
  | cons x t ih =>
    intro a ha
    rcases List.pairwise_cons.mp hs with ⟨hx, ht⟩
    cases t with
    | nil =>
      rcases List.mem_singleton.mp ha with rfl
      exact Nat.le_refl _
    | cons y t2 =>
      have htne : (y :: t2) ≠ [] := List.cons_ne_nil _ _
      have hlast : (x :: y :: t2).getLast hne = (y :: t2).getLast htne :=
        List.getLast_cons htne
      rw [hlast]
      rcases List.mem_cons.mp ha with rfl | hat
      · exact hx _ (List.getLast_mem htne)
      · exact ih ht htne a hat

/-- On a strictly newest-first list split as `A ++ B`, filtering by
"strictly older than the last element of `A`" keeps exactly `B`. -/
theorem filter_lt_getLast {A B : List Message}
    (hs : List.Sorted strictNewer (A ++ B)) (hne : A ≠ []) :
    (A ++ B).filter
      (fun m => decide (m.createdAt < (A.getLast hne).createdAt)) = B := by
  rcases List.pairwise_append.mp hs with ⟨hA, hB, hAB⟩
  rw [List.filter_append]
  have hAw : List.Sorted newestFirst A := hA.imp (fun h => Nat.le_of_lt h)
  have h1 : A.filter
      (fun m => decide (m.createdAt < (A.getLast hne).createdAt)) = [] := by
    rw [List.filter_eq_nil_iff]
    intro a ha
    simp only [decide_eq_true_eq]
    exact Nat.not_lt.mpr (getLast_createdAt_le hAw hne a ha)
  have h2 : B.filter
      (fun m => decide (m.createdAt < (A.getLast hne).createdAt)) = B := by
    rw [List.filter_eq_self]
    intro b hb
    simp only [decide_eq_true_eq]
    exact hAB _ (List.getLast_mem hne) b hb
  rw [h1, h2]
  rfl

/-- Sorting after filtering equals filtering the sorted list, once the
timestamps are pairwise distinct. -/
theorem sortDesc_filter_comm {F : List Message} (p : Message → Bool)
    (hnd : (F.map Message.createdAt).Nodup) :
    sortDesc (F.filter p) = (sortDesc F).filter p := by
  have hndD : ((sortDesc F).map Message.createdAt).Nodup :=
    (((sortDesc_perm F).map _).nodup_iff).mpr hnd
  have hsubfil : ((F.filter p).map Message.createdAt).Sublist
      (F.map Message.createdAt) := (List.filter_sublist F).map _
  have hndFil : ((F.filter p).map Message.createdAt).Nodup :=
    List.Nodup.sublist hsubfil hnd
  have h1 : List.Sorted strictNewer (sortDesc (F.filter p)) :=
    sorted_strict_of_nodup (sortDesc_sorted _)
      ((((sortDesc_perm (F.filter p)).map _).nodup_iff).mpr hndFil)
  have h2 : List.Sorted strictNewer ((sortDesc F).filter p) :=
    List.Pairwise.sublist (List.filter_sublist _)
      (sorted_strict_of_nodup (sortDesc_sorted F) hndD)
  have hperm : List.Perm (sortDesc (F.filter p)) ((sortDesc F).filter p) :=
    (sortDesc_perm (F.filter p)).trans ((sortDesc_perm F).symm.filter p)
  exact List.eq_of_perm_of_sorted hperm h1 h2

/-- Tightening the cursor from `cur` to a timestamp `t` below it filters the
current result set. -/
theorem filter_cursor_of_lt (msgs : List Message) (cid : Nat)
    (cur : Option Nat) (t : Nat) (hok : ∀ t0, cur = some t0 → t < t0) :
    msgs.filter (msgMatches cid (some t)) =
      (msgs.filter (msgMatches cid cur)).filter
        (fun m => decide (m.createdAt < t)) := by
  rw [List.filter_filter]
  refine List.filter_congr (fun m _ => ?_)
  unfold msgMatches
  cases cur with
  | none => cases m.conversationId == cid <;> simp
  | some t0 =>
    have ht0 := hok t0 rfl
    by_cases hlt : m.createdAt < t
    · have h2 : m.createdAt < t0 := Nat.lt_trans hlt ht0
      cases m.conversationId == cid <;> simp [hlt, h2]
    · cases m.conversationId == cid <;> simp [hlt]

/-- `pageFetch` when at most `limit` matching records remain: the whole
remainder comes back chronologically and `hasMore` is false. -/
theorem pageFetch_last (msgs : List Message) (cid : Nat) (cur : Option Nat)
    (L : Nat)
    (hlen : (sortDesc (msgs.filter (msgMatches cid cur))).length ≤ L) :
    pageFetch msgs cid cur L =
      ((sortDesc (msgs.filter (msgMatches cid cur))).reverse, false) := by
  unfold pageFetch
  set D := sortDesc (msgs.filter (msgMatches cid cur)) with hD
  have htake : D.take (L + 1) = D :=
    List.take_of_length_le (Nat.le_succ_of_le hlen)
  rw [htake]
  have hfalse : ¬ (L < D.length) := Nat.not_lt.mpr hlen
  simp [hfalse]

/-- `pageFetch` when more than `limit` matching records remain: the `limit`
newest, chronologically, and `hasMore` is true. -/
theorem pageFetch_more (msgs : List Message) (cid : Nat) (cur : Option Nat)
    (L : Nat)
    (hlen : L < (sortDesc (msgs.filter (msgMatches cid cur))).length) :
    pageFetch msgs cid cur L =
      (((sortDesc (msgs.filter (msgMatches cid cur))).take L).reverse, true) := by
  unfold pageFetch
  set D := sortDesc (msgs.filter (msgMatches cid cur)) with hD
  have hlentake : (D.take (L + 1)).length = L + 1 := by
    rw [List.length_take]
    exact Nat.min_eq_left (Nat.succ_le_of_lt hlen)
  have htrue : L < (D.take (L + 1)).length := by
    rw [hlentake]
    exact Nat.lt_succ_self L
  have hdrop : (D.take (L + 1)).dropLast = D.take L := by
    rw [List.dropLast_eq_take, hlentake]
    show (D.take (L + 1)).take (L + 1 - 1) = D.take L
    rw [Nat.add_sub_cancel, List.take_take]
    rw [Nat.min_eq_left (Nat.le_succ L)]
  have hcond : decide (L < (D.take (L + 1)).length) = true := decide_eq_true htrue
  rw [hcond, hdrop]
  simp

/-- Timestamps in the conversation being pairwise distinct extends to every
cursor-restricted result set. -/
theorem nodup_ts_cursor (msgs : List Message) (cid : Nat)
    (hnd : ((msgs.filter (msgMatches cid none)).map Message.createdAt).Nodup) :
    ∀ cur, ((msgs.filter (msgMatches cid cur)).map Message.createdAt).Nodup := by
  intro cur
  cases cur with
  | none => exact hnd
  | some t =>
    rw [filter_cursor_of_lt msgs cid none t (fun t0 h => Option.noConfusion h)]
    exact List.Nodup.sublist ((List.filter_sublist _).map _) hnd

/-- Following `before` cursors until `hasMore = false` reassembles exactly
the conversation's record set, sorted chronologically — provided the
timestamps are pairwise distinct, the limit is at least 1, and the fuel
covers the remaining records. -/
theorem collectPages_eq_aux (msgs : List Message) (cid L : Nat) (hL : 1 ≤ L)
    (hnd : ((msgs.filter (msgMatches cid none)).map Message.createdAt).Nodup) :
    ∀ (fuel : Nat) (cur : Option Nat),
      (sortDesc (msgs.filter (msgMatches cid cur))).length ≤ fuel →
      collectPages msgs cid L fuel cur =
        (sortDesc (msgs.filter (msgMatches cid cur))).reverse := by
  intro fuel
  induction fuel with
  | zero =>
    intro cur hlen
    have hnil : sortDesc (msgs.filter (msgMatches cid cur)) = [] :=
      List.eq_nil_of_length_eq_zero (Nat.le_zero.mp hlen)
    rw [hnil]
    rfl
  | succ fuel ih =>
    intro cur hlen
    by_cases hcase : (sortDesc (msgs.filter (msgMatches cid cur))).length ≤ L
    · have hpf := pageFetch_last msgs cid cur L hcase
      show (match pageFetch msgs cid cur L with
        | (pg, false) => pg
        | (pg, true) =>
          match pg.head? with
          | some m => collectPages msgs cid L fuel (some m.createdAt) ++ pg
          | none => pg) = (sortDesc (msgs.filter (msgMatches cid cur))).reverse
      rw [hpf]
    · push_neg at hcase
      have hpf := pageFetch_more msgs cid cur L hcase
      have hndD : ((sortDesc (msgs.filter (msgMatches cid cur))).map
          Message.createdAt).Nodup :=
        (((sortDesc_perm _).map _).nodup_iff).mpr (nodup_ts_cursor msgs cid hnd cur)
      have hstrict : List.Sorted strictNewer
          (sortDesc (msgs.filter (msgMatches cid cur))) :=
        sorted_strict_of_nodup (sortDesc_sorted _) hndD
      have htakene : (sortDesc (msgs.filter (msgMatches cid cur))).take L ≠ [] := by
        intro h0
        have hlt : 0 < (sortDesc (msgs.filter (msgMatches cid cur))).length :=
          Nat.lt_of_lt_of_le (Nat.lt_of_lt_of_le Nat.zero_lt_one hL)
            (Nat.le_of_lt hcase)
        have h1 : ((sortDesc (msgs.filter (msgMatches cid cur))).take L).length = 0 := by
          rw [h0]
          rfl
        rw [List.length_take] at h1
        rcases Nat.min_eq_zero_iff.mp h1 with h2 | h2
        · exact absurd h2 (Nat.ne_of_gt (Nat.lt_of_lt_of_le Nat.zero_lt_one hL))
        · exact absurd h2 (Nat.ne_of_gt hlt)
      have hhead : (((sortDesc (msgs.filter (msgMatches cid cur))).take L).reverse).head?
          = some (((sortDesc (msgs.filter (msgMatches cid cur))).take L).getLast
            htakene) := by
        rw [List.head?_reverse]
        exact List.getLast?_eq_getLast _ htakene
      have hlastmem : ((sortDesc (msgs.filter (msgMatches cid cur))).take L).getLast
          htakene ∈ msgs.filter (msgMatches cid cur) := by
        have h1 : ((sortDesc (msgs.filter (msgMatches cid cur))).take L).getLast
            htakene ∈ (sortDesc (msgs.filter (msgMatches cid cur))).take L :=
          List.getLast_mem htakene
        exact (sortDesc_perm _).subset (List.take_subset _ _ h1)
      have hok : ∀ t0, cur = some t0 →
          (((sortDesc (msgs.filter (msgMatches cid cur))).take L).getLast
            htakene).createdAt < t0 := by
        intro t0 hcur
        subst hcur
        have hmatch := (List.mem_filter.mp hlastmem).2
        unfold msgMatches at hmatch
        simp only [Bool.and_eq_true, decide_eq_true_eq] at hmatch
        exact hmatch.2
      have hkey : sortDesc (msgs.filter (msgMatches cid
          (some ((((sortDesc (msgs.filter (msgMatches cid cur))).take L).getLast
            htakene)).createdAt)))
          = (sortDesc (msgs.filter (msgMatches cid cur))).drop L := by
        rw [filter_cursor_of_lt msgs cid cur _ hok]
        rw [sortDesc_filter_comm _ (nodup_ts_cursor msgs cid hnd cur)]
        have hsplit := List.take_append_drop L (sortDesc (msgs.filter (msgMatches cid cur)))
        have hthis := filter_lt_getLast
          (A := (sortDesc (msgs.filter (msgMatches cid cur))).take L)
          (B := (sortDesc (msgs.filter (msgMatches cid cur))).drop L)
          (hsplit.symm ▸ hstrict) htakene
        rw [hsplit] at hthis
        exact hthis
      show (match pageFetch msgs cid cur L with
        | (pg, false) => pg
        | (pg, true) =>
          match pg.head? with
          | some m => collectPages msgs cid L fuel (some m.createdAt) ++ pg
          | none => pg) = (sortDesc (msgs.filter (msgMatches cid cur))).reverse
      rw [hpf]
      show (match (((sortDesc (msgs.filter (msgMatches cid cur))).take L).reverse).head? with
        | some m => collectPages msgs cid L fuel (some m.createdAt) ++
            ((sortDesc (msgs.filter (msgMatches cid cur))).take L).reverse
        | none => ((sortDesc (msgs.filter (msgMatches cid cur))).take L).reverse)
        = (sortDesc (msgs.filter (msgMatches cid cur))).reverse
      rw [hhead]
      show collectPages msgs cid L fuel
          (some ((((sortDesc (msgs.filter (msgMatches cid cur))).take L).getLast
            htakene)).createdAt) ++
          ((sortDesc (msgs.filter (msgMatches cid cur))).take L).reverse
        = (sortDesc (msgs.filter (msgMatches cid cur))).reverse
      have hfuel : (sortDesc (msgs.filter (msgMatches cid
          (some ((((sortDesc (msgs.filter (msgMatches cid cur))).take L).getLast
            htakene)).createdAt)))).length ≤ fuel := by
        rw [hkey, List.length_drop]
        omega
      rw [ih _ hfuel, hkey]
      rw [← List.reverse_append, List.take_append_drop]

/-- C6, as amended — for a conversation whose message timestamps are
pairwise distinct and a limit of at least 1, the page computation of
`getMessages` satisfies the claim: every returned record belongs to the
conversation and is strictly older than the cursor; at most `limit` records
are returned, in strictly ascending chronological order; `hasMore` is true
exactly when a strictly older matching record beyond the returned page
exists; and following `before` cursors from the start until
`hasMore = false` reassembles exactly the conversation's full,
duplicate-free record set in chronological order.  (Without distinct
timestamps the strict `$lt` cursor skips tied records — the counterexample
above; and `limit 0` means no limit to Mongo.) -/
theorem c6_pagination (msgs : List Message) (cid L : Nat) (cur : Option Nat)
    (hnd : ((msgs.filter (msgMatches cid none)).map Message.createdAt).Nodup)
    (hL : 1 ≤ L) :
    (∀ m ∈ (pageFetch msgs cid cur L).1,
      m.conversationId = cid ∧ ∀ t, cur = some t → m.createdAt < t) ∧
    (pageFetch msgs cid cur L).1.length ≤ L ∧
    List.Pairwise (fun a b => a.createdAt < b.createdAt)
      (pageFetch msgs cid cur L).1 ∧
    ((pageFetch msgs cid cur L).2 = true ↔
      ∃ m ∈ msgs.filter (msgMatches cid cur), m ∉ (pageFetch msgs cid cur L).1 ∧
        ∀ m2 ∈ (pageFetch msgs cid cur L).1, m.createdAt < m2.createdAt) ∧
    collectPages msgs cid L (msgs.length + 1) none =
      sortAsc (msgs.filter (msgMatches cid none)) ∧
    List.Perm (collectPages msgs cid L (msgs.length + 1) none)
      (msgs.filter (msgMatches cid none)) ∧
    List.Pairwise (fun a b => a.createdAt < b.createdAt)
      (collectPages msgs cid L (msgs.length + 1) none) := by
  have hmemF : ∀ m ∈ msgs.filter (msgMatches cid cur),
      m.conversationId = cid ∧ ∀ t, cur = some t → m.createdAt < t := by
    intro m hm
    have h2 := (List.mem_filter.mp hm).2
    unfold msgMatches at h2
    simp only [Bool.and_eq_true, beq_iff_eq] at h2
    refine ⟨h2.1, ?_⟩
    intro t hcur
    subst hcur
    have := h2.2
    simpa using this
  have hndD : ((sortDesc (msgs.filter (msgMatches cid cur))).map
      Message.createdAt).Nodup :=
    (((sortDesc_perm _).map _).nodup_iff).mpr (nodup_ts_cursor msgs cid hnd cur)
  have hstrict : List.Sorted strictNewer
      (sortDesc (msgs.filter (msgMatches cid cur))) :=
    sorted_strict_of_nodup (sortDesc_sorted _) hndD
  have hcollect : collectPages msgs cid L (msgs.length + 1) none =
      sortAsc (msgs.filter (msgMatches cid none)) := by
    apply collectPages_eq_aux msgs cid L hL hnd
    calc (sortDesc (msgs.filter (msgMatches cid none))).length
        = (msgs.filter (msgMatches cid none)).length := (sortDesc_perm _).length_eq
      _ ≤ msgs.length := List.length_filter_le _ _
      _ ≤ msgs.length + 1 := Nat.le_succ _
  have hndD0 : ((sortDesc (msgs.filter (msgMatches cid none))).map
      Message.createdAt).Nodup :=
    (((sortDesc_perm _).map _).nodup_iff).mpr hnd
  have hstrict0 : List.Sorted strictNewer
      (sortDesc (msgs.filter (msgMatches cid none))) :=
    sorted_strict_of_nodup (sortDesc_sorted _) hndD0
  have hcperm : List.Perm (collectPages msgs cid L (msgs.length + 1) none)
      (msgs.filter (msgMatches cid none)) := by
    rw [hcollect]
    exact (List.reverse_perm _).trans (sortDesc_perm _)
  have hcpair : List.Pairwise (fun a b => a.createdAt < b.createdAt)
      (collectPages msgs cid L (msgs.length + 1) none) := by
    rw [hcollect]
    exact (List.pairwise_reverse).mpr hstrict0
  by_cases hcase : (sortDesc (msgs.filter (msgMatches cid cur))).length ≤ L
  · rw [pageFetch_last msgs cid cur L hcase]
    refine ⟨?_, ?_, ?_, ?_, hcollect, hcperm, hcpair⟩
    · intro m hm
      exact hmemF m ((sortDesc_perm _).subset (List.mem_reverse.mp hm))
    · rw [List.length_reverse]
      exact hcase
    · exact (List.pairwise_reverse).mpr hstrict
    · constructor
      · intro h
        exact absurd h (by simp)
      · rintro ⟨m, hmF, hmnot, _⟩
        exact absurd (List.mem_reverse.mpr ((sortDesc_perm _).symm.subset hmF))
          hmnot
  · push_neg at hcase
    rw [pageFetch_more msgs cid cur L hcase]
    have hsplit := List.take_append_drop L (sortDesc (msgs.filter (msgMatches cid cur)))
    rcases List.pairwise_append.mp (hsplit.symm ▸ hstrict) with ⟨_, _, hAB⟩
    refine ⟨?_, ?_, ?_, ?_, hcollect, hcperm, hcpair⟩
    · intro m hm
      exact hmemF m ((sortDesc_perm _).subset
        (List.take_subset _ _ (List.mem_reverse.mp hm)))
    · rw [List.length_reverse, List.length_take]
      exact Nat.min_le_left _ _
    · exact (List.pairwise_reverse).mpr
        (List.Pairwise.sublist (List.take_sublist _ _) hstrict)
    · have hdropne : (sortDesc (msgs.filter (msgMatches cid cur))).drop L ≠ [] := by
        intro h0
        have h1 : ((sortDesc (msgs.filter (msgMatches cid cur))).drop L).length = 0 := by
          rw [h0]
          rfl
        rw [List.length_drop] at h1
        omega
      constructor
      · intro _
        refine ⟨((sortDesc (msgs.filter (msgMatches cid cur))).drop L).head hdropne,
          ?_, ?_, ?_⟩
        · exact (sortDesc_perm _).subset
            (List.drop_subset _ _ (List.head_mem hdropne))
        · intro hmem
          have h1 := List.mem_reverse.mp hmem
          have h2 := hAB _ h1 _ (List.head_mem hdropne)
          exact absurd h2 (Nat.lt_irrefl _)
        · intro m2 hm2
          exact hAB m2 (List.mem_reverse.mp hm2) _ (List.head_mem hdropne)
      · intro _
        rfl

/-- A sample store: three records in conversation 0 (distinct timestamps),
one in conversation 1. -/
def c6SampleMsgs : List Message :=
  [⟨1, 0, "a", "b", "x", true, false, 1⟩,
    ⟨2, 0, "a", "b", "y", true, false, 2⟩,
    ⟨3, 0, "b", "a", "z", true, false, 3⟩,
    ⟨4, 1, "c", "d", "w", true, false, 5⟩]

/-- C6 witness: the pagination theorem at the sample store, page size 1. -/
theorem c6_pagination_witness :
    (∀ m ∈ (pageFetch c6SampleMsgs 0 none 1).1,
      m.conversationId = 0 ∧ ∀ t, (none : Option Nat) = some t → m.createdAt < t) ∧
    (pageFetch c6SampleMsgs 0 none 1).1.length ≤ 1 ∧
    List.Pairwise (fun a b => a.createdAt < b.createdAt)
      (pageFetch c6SampleMsgs 0 none 1).1 ∧
    ((pageFetch c6SampleMsgs 0 none 1).2 = true ↔
      ∃ m ∈ c6SampleMsgs.filter (msgMatches 0 none),
        m ∉ (pageFetch c6SampleMsgs 0 none 1).1 ∧
        ∀ m2 ∈ (pageFetch c6SampleMsgs 0 none 1).1, m.createdAt < m2.createdAt) ∧
    collectPages c6SampleMsgs 0 1 (c6SampleMsgs.length + 1) none =
      sortAsc (c6SampleMsgs.filter (msgMatches 0 none)) ∧
    List.Perm (collectPages c6SampleMsgs 0 1 (c6SampleMsgs.length + 1) none)
      (c6SampleMsgs.filter (msgMatches 0 none)) ∧
    List.Pairwise (fun a b => a.createdAt < b.createdAt)
      (collectPages c6SampleMsgs 0 1 (c6SampleMsgs.length + 1) none) :=
  c6_pagination c6SampleMsgs 0 1 none (by decide) (by decide)

/-! ### C7 — per-message decryption degradation -/

theorem decryptView_fields (dec : List Nat → List Nat → Option String)
    (m : Message) :
    (decryptView dec m).id = m.id ∧ (decryptView dec m).sender = m.sender ∧
    (decryptView dec m).recipient = m.recipient ∧
    (decryptView dec m).createdAt = m.createdAt ∧
    (decryptView dec m).read = m.read ∧
    (decryptView dec m).conversationId = m.conversationId := by
  unfold decryptView
  split
  · split <;> exact ⟨rfl, rfl, rfl, rfl, rfl, rfl⟩
  · exact ⟨rfl, rfl, rfl, rfl, rfl, rfl⟩

theorem decryptView_content_fail (dec : List Nat → List Nat → Option String)
    (m : Message) (he : m.isEncrypted = true)
    (hd : decryptMessage dec m.content = none) :
    (decryptView dec m).content = "[Message decryption failed]" := by
  unfold decryptView
  rw [if_pos he, hd]

theorem decryptView_content_ok (dec : List Nat → List Nat → Option String)
    (m : Message) (p : String) (he : m.isEncrypted = true)
    (hd : decryptMessage dec m.content = some p) :
    (decryptView dec m).content = p := by
  unfold decryptView
  rw [if_pos he, hd]

theorem decryptView_content_plain (dec : List Nat → List Nat → Option String)
    (m : Message) (he : m.isEncrypted = false) :
    (decryptView dec m).content = m.content := by
  unfold decryptView
  rw [if_neg (by simp [he])]

/-- C7 — For an authorized caller, `getMessages` always answers `.ok` with
the full page: each message whose decryption fails carries the sentinel
`"[Message decryption failed]"`, each message whose decryption succeeds
carries its decrypted content, unencrypted messages pass through, other
fields are untouched, and no failure ever aborts the fetch or affects any
other message of the page. -/
theorem c7_decryption_degrades (dec : List Nat → List Nat → Option String)
    (convs : List Conversation) (msgs : List Message) (userId : String)
    (cid L : Nat) (cur : Option Nat)
    (hauth : ∃ c ∈ convs, c.id = cid ∧ userId ∈ c.participants) :
    ∃ out, getMessages dec convs msgs userId cid L cur =
        .ok (out, (pageFetch msgs cid cur L).2) ∧
      out.length = (pageFetch msgs cid cur L).1.length ∧
      ∀ (i : Nat) (h1 : i < out.length)
        (h2 : i < (pageFetch msgs cid cur L).1.length),
        out[i].id = (pageFetch msgs cid cur L).1[i].id ∧
        out[i].sender = (pageFetch msgs cid cur L).1[i].sender ∧
        out[i].recipient = (pageFetch msgs cid cur L).1[i].recipient ∧
        out[i].createdAt = (pageFetch msgs cid cur L).1[i].createdAt ∧
        out[i].read = (pageFetch msgs cid cur L).1[i].read ∧
        out[i].conversationId = (pageFetch msgs cid cur L).1[i].conversationId ∧
        ((pageFetch msgs cid cur L).1[i].isEncrypted = true →
          decryptMessage dec (pageFetch msgs cid cur L).1[i].content = none →
          out[i].content = "[Message decryption failed]") ∧
        ((pageFetch msgs cid cur L).1[i].isEncrypted = true →
          ∀ p, decryptMessage dec (pageFetch msgs cid cur L).1[i].content = some p →
            out[i].content = p) ∧
        ((pageFetch msgs cid cur L).1[i].isEncrypted = false →
          out[i].content = (pageFetch msgs cid cur L).1[i].content) := by
  rcases hauth with ⟨c, hc, hcid, hu⟩
  have hfind : ∃ c0, convs.find? (fun x => x.id == cid &&
      x.participants.contains userId) = some c0 := by
    cases hf : convs.find? (fun x => x.id == cid &&
        x.participants.contains userId) with
    | none =>
      rw [List.find?_eq_none] at hf
      exact absurd (by simp [hcid, hu] : (fun x => x.id == cid &&
        x.participants.contains userId) c = true) (hf c hc)
    | some c0 => exact ⟨c0, rfl⟩
  rcases hfind with ⟨c0, hf⟩
  refine ⟨(pageFetch msgs cid cur L).1.map (decryptView dec), ?_, ?_, ?_⟩
  · unfold getMessages
    rw [hf]
  · exact List.length_map _ _
  · intro i h1 h2
    have hget : ((pageFetch msgs cid cur L).1.map (decryptView dec))[i] =
        decryptView dec ((pageFetch msgs cid cur L).1[i]) :=
      List.getElem_map _
    rw [hget]
    rcases decryptView_fields dec ((pageFetch msgs cid cur L).1[i]) with
      ⟨f1, f2, f3, f4, f5, f6⟩
    refine ⟨f1, f2, f3, f4, f5, f6, ?_, ?_, ?_⟩
    · intro he hd
      exact decryptView_content_fail dec _ he hd
    · intro he p hd
      exact decryptView_content_ok dec _ p he hd
    · intro he
      exact decryptView_content_plain dec _ he

/-- C7 witness: one corrupt record ("xx" is no envelope) and one valid
envelope in the same page; the fetch succeeds, the corrupt record degrades
to the sentinel, the valid one decrypts. -/
theorem c7_decryption_degrades_witness :
    ∃ out, getMessages (fun _ _ => some "hi")
        [⟨0, "", false, ["u", "v"], []⟩]
        [⟨1, 0, "u", "v", "xx", true, false, 1⟩,
          ⟨2, 0, "v", "u", "00000000000000000000000000000000:ab", true, false, 2⟩]
        "u" 0 50 none =
        .ok (out, (pageFetch
          [⟨1, 0, "u", "v", "xx", true, false, 1⟩,
            ⟨2, 0, "v", "u", "00000000000000000000000000000000:ab", true, false, 2⟩]
          0 none 50).2) ∧
      out.length = (pageFetch
        [⟨1, 0, "u", "v", "xx", true, false, 1⟩,
          ⟨2, 0, "v", "u", "00000000000000000000000000000000:ab", true, false, 2⟩]
        0 none 50).1.length ∧
      ∀ (i : Nat) (h1 : i < out.length)
        (h2 : i < (pageFetch
          [⟨1, 0, "u", "v", "xx", true, false, 1⟩,
            ⟨2, 0, "v", "u", "00000000000000000000000000000000:ab", true, false, 2⟩]
          0 none 50).1.length),
        out[i].id = (pageFetch
          [⟨1, 0, "u", "v", "xx", true, false, 1⟩,
            ⟨2, 0, "v", "u", "00000000000000000000000000000000:ab", true, false, 2⟩]
          0 none 50).1[i].id ∧
        out[i].sender = (pageFetch
          [⟨1, 0, "u", "v", "xx", true, false, 1⟩,
            ⟨2, 0, "v", "u", "00000000000000000000000000000000:ab", true, false, 2⟩]
          0 none 50).1[i].sender ∧
        out[i].recipient = (pageFetch
          [⟨1, 0, "u", "v", "xx", true, false, 1⟩,
            ⟨2, 0, "v", "u", "00000000000000000000000000000000:ab", true, false, 2⟩]
          0 none 50).1[i].recipient ∧
        out[i].createdAt = (pageFetch
          [⟨1, 0, "u", "v", "xx", true, false, 1⟩,
            ⟨2, 0, "v", "u", "00000000000000000000000000000000:ab", true, false, 2⟩]
          0 none 50).1[i].createdAt ∧
        out[i].read = (pageFetch
          [⟨1, 0, "u", "v", "xx", true, false, 1⟩,
            ⟨2, 0, "v", "u", "00000000000000000000000000000000:ab", true, false, 2⟩]
          0 none 50).1[i].read ∧
        out[i].conversationId = (pageFetch
          [⟨1, 0, "u", "v", "xx", true, false, 1⟩,
            ⟨2, 0, "v", "u", "00000000000000000000000000000000:ab", true, false, 2⟩]
          0 none 50).1[i].conversationId ∧
        ((pageFetch
          [⟨1, 0, "u", "v", "xx", true, false, 1⟩,
            ⟨2, 0, "v", "u", "00000000000000000000000000000000:ab", true, false, 2⟩]
          0 none 50).1[i].isEncrypted = true →
          decryptMessage (fun _ _ => some "hi") (pageFetch
            [⟨1, 0, "u", "v", "xx", true, false, 1⟩,
              ⟨2, 0, "v", "u", "00000000000000000000000000000000:ab", true, false, 2⟩]
            0 none 50).1[i].content = none →
          out[i].content = "[Message decryption failed]") ∧
        ((pageFetch
          [⟨1, 0, "u", "v", "xx", true, false, 1⟩,
            ⟨2, 0, "v", "u", "00000000000000000000000000000000:ab", true, false, 2⟩]
          0 none 50).1[i].isEncrypted = true →
          ∀ p, decryptMessage (fun _ _ => some "hi") (pageFetch
            [⟨1, 0, "u", "v", "xx", true, false, 1⟩,
              ⟨2, 0, "v", "u", "00000000000000000000000000000000:ab", true, false, 2⟩]
            0 none 50).1[i].content = some p →
            out[i].content = p) ∧
        ((pageFetch
          [⟨1, 0, "u", "v", "xx", true, false, 1⟩,
            ⟨2, 0, "v", "u", "00000000000000000000000000000000:ab", true, false, 2⟩]
          0 none 50).1[i].isEncrypted = false →
          out[i].content = (pageFetch
            [⟨1, 0, "u", "v", "xx", true, false, 1⟩,
              ⟨2, 0, "v", "u", "00000000000000000000000000000000:ab", true, false, 2⟩]
            0 none 50).1[i].content) :=
  c7_decryption_degrades (fun _ _ => some "hi")
    [⟨0, "", false, ["u", "v"], []⟩]
    [⟨1, 0, "u", "v", "xx", true, false, 1⟩,
      ⟨2, 0, "v", "u", "00000000000000000000000000000000:ab", true, false, 2⟩]
    "u" 0 50 none (by decide)

/-- C6 counterexample — two records of one conversation tied at timestamp 5,
limit 1: the page fetch reports `hasMore = true` although no strictly older
matching record beyond the returned page exists, and following `before`
cursors returns only one of the two records (the strict `$lt` cursor skips
the tied record), so the claim as stated — for every conversation, cursor
and limit — is false on the code. -/
theorem c6_counterexample :
    (pageFetch [⟨1, 0, "a", "b", "x", true, false, 5⟩,
        ⟨2, 0, "a", "b", "y", true, false, 5⟩] 0 none 1).2 = true ∧
    ¬ (∃ m ∈ ([⟨1, 0, "a", "b", "x", true, false, 5⟩,
          ⟨2, 0, "a", "b", "y", true, false, 5⟩] :
            List Message).filter (msgMatches 0 none),
        m ∉ (pageFetch [⟨1, 0, "a", "b", "x", true, false, 5⟩,
          ⟨2, 0, "a", "b", "y", true, false, 5⟩] 0 none 1).1 ∧
        ∀ m2 ∈ (pageFetch [⟨1, 0, "a", "b", "x", true, false, 5⟩,
          ⟨2, 0, "a", "b", "y", true, false, 5⟩] 0 none 1).1,
          m.createdAt < m2.createdAt) ∧
    collectPages [⟨1, 0, "a", "b", "x", true, false, 5⟩,
        ⟨2, 0, "a", "b", "y", true, false, 5⟩] 0 1 3 none =
      [⟨1, 0, "a", "b", "x", true, false, 5⟩] ∧
    ([⟨1, 0, "a", "b", "x", true, false, 5⟩,
        ⟨2, 0, "a", "b", "y", true, false, 5⟩] :
          List Message).filter (msgMatches 0 none) =
      [⟨1, 0, "a", "b", "x", true, false, 5⟩,
        ⟨2, 0, "a", "b", "y", true, false, 5⟩] := by
  exact ⟨by decide, by decide, by decide, by decide⟩
